import Mathlib

/-!
# Verification of the mapping-driven diff-and-sync engine (notion_sync.py)

A shallow embedding of the value normalizer, property codec, diff engine and
sync orchestrator of `notion_sync.py`, with theorems settling the spec claims.

Python strings are modelled as Lean `String` (list of characters), Python's
dynamically typed values as the inductive `Value` (null, str, int, float —
a float is modelled by its exact rational value), dicts as association lists
read through first-match lookup (Python dict keys are unique), and exceptions
as `Except`/`Option` results.  `float(...)` is modelled for plain decimal
literals (no `inf`/`nan`/underscore grouping) and
`datetime.datetime.fromisoformat` for the dashed calendar-date subset of its
grammar; both are faithful on every value the claims mention.
-/

namespace SteamToNotion

/-! ### Characters and strings: Python-style primitives -/

/-- ASCII character of a decimal digit (callers pass values `< 10`). -/
def digitChar (d : Nat) : Char := Char.ofNat (48 + d)

/-- Numeric value of an ASCII digit character. -/
def charVal (c : Char) : Nat := c.toNat - 48

/-- Is `c` an ASCII decimal digit? -/
def isDig (c : Char) : Bool := 48 ≤ c.toNat ∧ c.toNat ≤ 57

/-- Whitespace as stripped by Python `str.strip` (ASCII subset). -/
def isWs (c : Char) : Bool :=
  c.toNat = 32 ∨ c.toNat = 9 ∨ c.toNat = 10 ∨ c.toNat = 13 ∨ c.toNat = 11 ∨ c.toNat = 12

/-- `str.strip`: drop leading and trailing whitespace of a character list. -/
def trimChars (l : List Char) : List Char :=
  ((l.dropWhile isWs).reverse.dropWhile isWs).reverse

/-- Python `str.strip`. -/
def pyStrip (s : String) : String := ⟨trimChars s.data⟩

/-- Lower-case an ASCII letter, pass anything else through. -/
def lowChar (c : Char) : Char :=
  if 65 ≤ c.toNat ∧ c.toNat ≤ 90 then Char.ofNat (c.toNat + 32) else c

/-- Python `str.lower` (ASCII subset). -/
def pyLower (s : String) : String := ⟨s.data.map lowChar⟩

/-- Decimal digits of `n`, most significant first (`fuel ≥ n` suffices). -/
def natDigits : Nat → Nat → List Char
  | 0, _ => []
  | fuel+1, n => if n = 0 then [] else natDigits fuel (n / 10) ++ [digitChar (n % 10)]

/-- Character list of Python `str` of a nonnegative integer. -/
def renderNatL (n : Nat) : List Char := if n = 0 then ['0'] else natDigits n n

/-- Python `str` of a nonnegative integer. -/
def renderNat (n : Nat) : String := ⟨renderNatL n⟩

/-- Character list of Python `str` of an integer. -/
def renderIntL (n : Int) : List Char :=
  if n < 0 then '-' :: renderNatL n.natAbs else renderNatL n.natAbs

/-- Python `str` of an integer. -/
def renderInt (n : Int) : String := ⟨renderIntL n⟩

/-- Digits after the decimal point of `a / b` (`0 ≤ a < b`), at most `fuel`
digits, stopping when the remainder vanishes. -/
def fracDigits : Nat → Nat → Nat → List Char
  | 0, _, _ => []
  | fuel+1, a, b =>
    if a = 0 then [] else digitChar (10 * a / b % 10) :: fracDigits fuel (10 * a % b) b

/-- Character list of the model of Python `str` of a float: the exact decimal
expansion of the rational value (at most 17 fractional digits). -/
def renderFloatL (q : Rat) : List Char :=
  if q.den = 1 then renderIntL q.num ++ ['.', '0']
  else
    (if q.num < 0 then ['-'] else []) ++ renderNatL (q.num.natAbs / q.den) ++
      '.' :: fracDigits 17 (q.num.natAbs % q.den) q.den

/-- Python `str` of a float. -/
def renderFloat (q : Rat) : String := ⟨renderFloatL q⟩

/-! ### Python values -/

/-- A Python value as it occurs in the sync pipeline (JSON scalars). -/
inductive Value
  | vnull
  | vstr (s : String)
  | vint (n : Int)
  | vfloat (q : Rat)
deriving DecidableEq

/-- Python `str(value)`. -/
def pyStr : Value → String
  | .vnull => "None"
  | .vstr s => s
  | .vint n => renderInt n
  | .vfloat q => renderFloat q

/-- Python truthiness of a value. -/
def pyTruthy : Value → Bool
  | .vnull => false
  | .vstr s => s ≠ ""
  | .vint n => n ≠ 0
  | .vfloat q => q ≠ 0

/-! ### `float(...)`: parsing and one-decimal formatting -/

/-- Leading sign of a numeric literal (`true` = negative). -/
def parseSign (l : List Char) : Bool × List Char :=
  match l with
  | c :: r => if c = '-' then (true, r) else if c = '+' then (false, r) else (false, l)
  | [] => (false, l)

/-- Fold decimal digit characters into a natural number. -/
def parseNatDigits (l : List Char) : Nat := l.foldl (fun a c => a * 10 + charVal c) 0

/-- Exponent tail of a float literal after `e`/`E`: sign and digits, nothing after. -/
def parseExpTail (r : List Char) : Option Int :=
  let s := parseSign r
  let p := s.1
  let d := s.2.span isDig
  if d.1 = [] ∨ d.2 ≠ [] then none
  else some (if p then -(parseNatDigits d.1 : Int) else (parseNatDigits d.1 : Int))

/-- Remainder of a float literal after the mantissa: empty or an exponent item. -/
def parseExp : List Char → Option Int
  | [] => some 0
  | 'e' :: r => parseExpTail r
  | 'E' :: r => parseExpTail r
  | _ => none

/-- Model of Python `float(str)` on plain decimal literals: optional
whitespace, sign, digits with an optional fraction, optional exponent. -/
def parsePyFloat (s : String) : Option Rat :=
  let l := trimChars s.data
  let sg := parseSign l
  let ipr := sg.2.span isDig
  let fpr := match ipr.2 with
    | c :: r => if c = '.' then r.span isDig else (([] : List Char), ipr.2)
    | [] => (([] : List Char), ipr.2)
  if ipr.1 = [] ∧ fpr.1 = [] then none
  else
    match parseExp fpr.2 with
    | none => none
    | some e =>
      let mant : Int :=
        if sg.1 then -(parseNatDigits (ipr.1 ++ fpr.1) : Int)
        else (parseNatDigits (ipr.1 ++ fpr.1) : Int)
      let sc : Int := e - fpr.1.length
      some (if 0 ≤ sc then mkRat (mant * ((10 ^ sc.toNat : Nat) : Int)) 1
            else mkRat mant (10 ^ (-sc).toNat))

/-- Model of Python `float(value)`. -/
def pyFloat : Value → Option Rat
  | .vnull => none
  | .vstr s => parsePyFloat s
  | .vint n => some (mkRat n 1)
  | .vfloat q => some q

/-- Round `a / b` (`b > 0`) to the nearest integer, ties to even. -/
def roundHalfEven (a : Int) (b : Nat) : Int :=
  let d := Int.ediv a b
  let r := Int.emod a b
  if 2 * r < (b : Int) then d
  else if (b : Int) < 2 * r then d + 1
  else if Int.emod d 2 = 0 then d else d + 1

/-- Character list of `f"{q:.1f}"`: one fractional digit, round half to even,
sign kept on the magnitude. -/
def oneDecL (q : Rat) : List Char :=
  let n := (roundHalfEven (10 * q.num.natAbs) q.den).toNat
  (if q.num < 0 then ['-'] else []) ++ renderNatL (n / 10) ++ ['.', digitChar (n % 10)]

/-- `f"{q:.1f}"`. -/
def oneDecStr (q : Rat) : String := ⟨oneDecL q⟩

/-! ### `datetime.fromisoformat` and `strftime("%Y-%m-%dT%H:%M")` -/

/-- Two ASCII digits as a number. -/
def d2 (a b : Char) : Option Nat :=
  if isDig a ∧ isDig b then some (charVal a * 10 + charVal b) else none

/-- Four ASCII digits as a number. -/
def d4 (a b c d : Char) : Option Nat :=
  if isDig a ∧ isDig b ∧ isDig c ∧ isDig d then
    some (((charVal a * 10 + charVal b) * 10 + charVal c) * 10 + charVal d)
  else none

/-- The fields of a parsed `datetime` that the sync engine can observe. -/
structure PyDateTime where
  year : Nat
  month : Nat
  day : Nat
  hour : Nat
  minute : Nat
  second : Nat
deriving DecidableEq

/-- Gregorian leap year. -/
def isLeap (y : Nat) : Bool := y % 4 = 0 ∧ (y % 100 ≠ 0 ∨ y % 400 = 0)

/-- Number of days of month `m` of year `y`. -/
def daysInMonth (y m : Nat) : Nat :=
  if m = 2 then (if isLeap y then 29 else 28)
  else if m = 4 ∨ m = 6 ∨ m = 9 ∨ m = 11 then 30 else 31

/-- UTC-offset digits `HH:MM` after the sign. -/
def offsetTail : List Char → Bool
  | [o1, o2, ':', p1, p2] =>
    match d2 o1 o2, d2 p1 p2 with
    | some oh, some om => oh ≤ 23 ∧ om ≤ 59
    | _, _ => false
  | _ => false

/-- Optional timezone offset: empty or `±HH:MM` (`Z` was already replaced by
`+00:00` before parsing). -/
def parseTz : List Char → Bool
  | [] => true
  | c :: r => (c = '+' ∨ c = '-') ∧ offsetTail r

/-- After `SS`: optional fractional digits, then the optional offset. -/
def parseSecTail : List Char → Bool
  | '.' :: r =>
    let p := r.span isDig
    p.1 ≠ [] ∧ parseTz p.2
  | l => parseTz l

/-- Time part `HH[:MM[:SS[.ffff]]][±HH:MM]` of an ISO timestamp. -/
def parseTime : List Char → Option (Nat × Nat × Nat)
  | a :: b :: rest =>
    match d2 a b with
    | none => none
    | some h =>
      match rest with
      | [] => some (h, 0, 0)
      | ':' :: m1 :: m2 :: rest2 =>
        match d2 m1 m2 with
        | none => none
        | some mi =>
          match rest2 with
          | [] => some (h, mi, 0)
          | ':' :: s1 :: s2 :: rest3 =>
            match d2 s1 s2 with
            | none => none
            | some se => if parseSecTail rest3 then some (h, mi, se) else none
          | l => if parseTz l then some (h, mi, 0) else none
      | l => if parseTz l then some (h, 0, 0) else none
  | _ => none

/-- Shape of an ISO timestamp: `YYYY-MM-DD`, then optionally one separator
character and a time part. -/
def pyDateShape : List Char → Option PyDateTime
  | a :: b :: c :: d :: '-' :: e :: f :: '-' :: g :: k :: rest =>
    match d4 a b c d, d2 e f, d2 g k with
    | some y, some mo, some dy =>
      match rest with
      | [] => some ⟨y, mo, dy, 0, 0, 0⟩
      | _ :: timeChars =>
        match parseTime timeChars with
        | some t => some ⟨y, mo, dy, t.1, t.2.1, t.2.2⟩
        | none => none
    | _, _, _ => none
  | _ => none

/-- Range validity of the parsed fields (Python validates them on parse). -/
def validDT (t : PyDateTime) : Bool :=
  1 ≤ t.year ∧ t.year ≤ 9999 ∧ 1 ≤ t.month ∧ t.month ≤ 12 ∧
  1 ≤ t.day ∧ t.day ≤ daysInMonth t.year t.month ∧
  t.hour ≤ 23 ∧ t.minute ≤ 59 ∧ t.second ≤ 59

/-- Model of `datetime.datetime.fromisoformat`: dashed calendar date, an
arbitrary single separator character, time and optional `±HH:MM` offset. -/
def pyFromIso (s : String) : Option PyDateTime :=
  match pyDateShape s.data with
  | some t => if validDT t then some t else none
  | none => none

/-- Two-digit zero-padded field. -/
def pad2 (n : Nat) : List Char := [digitChar (n / 10 % 10), digitChar (n % 10)]

/-- Four-digit zero-padded field. -/
def pad4 (n : Nat) : List Char :=
  [digitChar (n / 1000 % 10), digitChar (n / 100 % 10), digitChar (n / 10 % 10),
   digitChar (n % 10)]

/-- `dt.strftime("%Y-%m-%dT%H:%M")` (the offset, if any, is not printed). -/
def fmtMinute (t : PyDateTime) : String :=
  ⟨pad4 t.year ++ '-' :: pad2 t.month ++ '-' :: pad2 t.day ++
   'T' :: pad2 t.hour ++ ':' :: pad2 t.minute⟩

/-- `value_str.replace("Z", "+00:00")` (the needle is a single character). -/
def replaceZ (s : String) : String :=
  ⟨(s.data.map (fun c => if c = 'Z' then ['+', '0', '0', ':', '0', '0'] else [c])).flatten⟩

/-! ### `normalize_value` (notion_sync.py, lines 61-87) -/

/-- The guard of line 62: `value is None or value == "" or str(value).strip()
== "" or str(value).lower() == "none"`. -/
def isEmptyLike (value : Value) : Bool :=
  value = .vnull ∨ value = .vstr "" ∨ pyStrip (pyStr value) = "" ∨
    pyLower (pyStr value) = "none"

/-- `normalize_value(value, field_type)`: translation of lines 61-87. -/
def normalize_value (value : Value) (field_type : String) : String :=
  if isEmptyLike value then ""
  else if field_type = "date" then
    let value_str := pyStrip (pyStr value)
    if value_str = "" ∨ pyLower value_str = "none" then ""
    else
      match pyFromIso (replaceZ value_str) with
      | some dt => fmtMinute dt
      | none => ""
  else if field_type = "number" then
    match pyFloat value with
    | some q => if q.den = 1 then renderInt q.num else oneDecStr q
    | none => pyStrip (pyStr value)
  else
    match value with
    | .vstr s => pyStrip s
    | v => pyStr v

/-! ### Field mapping, records, templates -/

/-- One piece of a `format` template: literal text or a `{field}` reference. -/
inductive TemplateItem
  | lit (s : String)
  | field (name : String)
deriving DecidableEq

/-- One entry of `mapping.json` (keyed by the local field name). -/
structure MapEntry where
  notion_field : String
  type : Option String
  format : Option (List TemplateItem)
deriving DecidableEq

/-- The field mapping: local field name to entry, in declaration order. -/
abbrev Mapping := List (String × MapEntry)

/-- A local game record: field name to value, in insertion order. -/
abbrev Record := List (String × Value)

/-- Python `dict` lookup (first binding wins; dict keys are unique). -/
def aget {α : Type} (m : List (String × α)) (k : String) : Option α :=
  match m.find? (fun p => p.1 = k) with
  | some p => some p.2
  | none => none

/-- `fmt.format(**game)`: expand a template; `KeyError`, carrying the field
name, when a referenced field is absent. -/
def expandTemplate (tpl : List TemplateItem) (g : Record) : Except String String :=
  match tpl with
  | [] => .ok ""
  | .lit s :: rest => (expandTemplate rest g).map (fun t => s ++ t)
  | .field n :: rest =>
    match aget g n with
    | some v => (expandTemplate rest g).map (fun t => pyStr v ++ t)
    | none => .error n

/-! ### Property codec (`build_properties`, `extract_page_properties`) -/

/-- Wire-format payload of one Notion property as built by `build_properties`. -/
inductive NotionProp
  | title (content : String)
  | number (v : Value)
  | date (start : Value)
  | url (u : String)
  | rich_text (content : String)
deriving DecidableEq

/-- One entry of `build_properties` (lines 93-114): the resulting
`(notion_field, payload)` pair, `none` when a falsy date value suppresses the
property, `Except.error` on a template `KeyError`. -/
def buildPropEntry (game : Record) (local_field : String) (mi : MapEntry) :
    Except String (Option (String × NotionProp)) := do
  let value : Value ← match mi.format with
    | some tpl => (expandTemplate tpl game).map Value.vstr
    | none => .ok ((aget game local_field).getD (.vstr ""))
  match mi.type with
  | some "title" => .ok (some (mi.notion_field, .title (pyStr value)))
  | some "number" => .ok (some (mi.notion_field, .number value))
  | some "date" => .ok (if pyTruthy value then some (mi.notion_field, .date value) else none)
  | some "url" => .ok (some (mi.notion_field, .url (pyStr value)))
  | _ => .ok (some (mi.notion_field, .rich_text (pyStr value)))

/-- `build_properties(game, mapping)` (lines 90-115). -/
def build_properties (game : Record) : Mapping → Except String (List (String × NotionProp))
  | [] => .ok []
  | (lf, mi) :: rest => do
    let e ← buildPropEntry game lf mi
    let r ← build_properties game rest
    .ok (match e with | some p => p :: r | none => r)

/-- A remote property object, shaped per wire type. -/
inductive RemoteProp
  | title (items : List String)
  | number (v : Value)
  | date (start : Option String)
  | url (u : String)
  | rich_text (items : List String)
deriving DecidableEq

/-- A page cover object: external URL and/or stored-file URL. -/
structure PageCover where
  external : Option String
  file : Option String
deriving DecidableEq

/-- A remote page: identifier, property bag, optional cover. -/
structure Page where
  id : String
  properties : List (String × RemoteProp)
  cover : Option PageCover
deriving DecidableEq

/-- The `value` extracted per wire type in `extract_page_properties`
(lines 169-187), before the final `str(...).strip()`; a lookup against a
property of a different shape behaves like the Python `dict.get` default. -/
def extractRaw (ft : Option String) (prop : RemoteProp) : Value :=
  match ft, prop with
  | some "title", .title items => .vstr (pyStrip (String.join items))
  | some "title", _ => .vstr ""
  | some "number", .number v => v
  | some "number", _ => .vnull
  | some "date", .date (some s) => .vstr s
  | some "date", _ => .vstr ""
  | some "url", .url u => .vstr (pyStrip u)
  | some "url", _ => .vstr ""
  | some "rich_text", .rich_text items => .vstr (pyStrip (String.join items))
  | some "rich_text", _ => .vstr ""
  | _, _ => .vstr ""

/-- The synthetic `cover` value of a page (lines 190-196): prefer the external
URL, fall back to the stored-file URL, else empty. -/
def coverUrl : Option PageCover → String
  | none => ""
  | some cv =>
    match cv.external with
    | some u => pyStrip u
    | none =>
      match cv.file with
      | some u => pyStrip u
      | none => ""

/-- `extract_page_properties(page, mapping)` (lines 162-197). -/
def extract_page_properties (page : Page) (mapping : Mapping) : List (String × String) :=
  (mapping.foldr
    (fun (p : String × MapEntry) acc =>
      match aget page.properties p.2.notion_field with
      | some prop => (p.1, pyStrip (pyStr (extractRaw p.2.type prop))) :: acc
      | none => acc) [])
  ++ [("cover", coverUrl page.cover)]

/-! ### Diff engine (`properties_equal`, lines 200-208) -/

/-- `mapping.get(key, {}).get('type', 'text')`. -/
def fieldTypeOf (mapping : Mapping) (key : String) : String :=
  match aget mapping key with
  | some mi => mi.type.getD "text"
  | none => "text"

/-- A Python `dict.get` result fed to `normalize_value` (`None` on a miss). -/
def ovalue : Option String → Value
  | some s => .vstr s
  | none => .vnull

/-- The comparison loop of `properties_equal` over the keys of `new`. -/
def propsEqualKeys (existing new : List (String × String)) (mapping : Mapping) :
    List String → Bool
  | [] => true
  | key :: rest =>
    let ft := fieldTypeOf mapping key
    if normalize_value (ovalue (aget existing key)) ft =
        normalize_value (ovalue (aget new key)) ft then
      propsEqualKeys existing new mapping rest
    else false

/-- `properties_equal(existing, new, mapping)` (lines 200-208). -/
def properties_equal (existing new : List (String × String)) (mapping : Mapping) : Bool :=
  propsEqualKeys existing new mapping (new.map (fun p => p.1))

/-! ### Sync orchestrator (`sync_games_to_notion`, lines 279-324) -/

/-- `game.copy()` plus the two `setdefault` calls (lines 297-299); a missing
key is appended in insertion order, present keys are untouched. -/
def safeGame (g : Record) : Record :=
  let g1 := match aget g "Achievements Unlocked" with
    | some _ => g
    | none => g ++ [("Achievements Unlocked", Value.vstr "0")]
  match aget g1 "Achievements Total" with
  | some _ => g1
  | none => g1 ++ [("Achievements Total", Value.vstr "游戏不存在成就")]

/-- The per-field loop building `new_props` (lines 302-309). -/
def buildNewPropsGo (g : Record) : Mapping → Except String (List (String × String))
  | [] => .ok []
  | (lf, mi) :: rest => do
    let value : Value ← match mi.format with
      | some tpl => (expandTemplate tpl g).map Value.vstr
      | none => .ok ((aget g lf).getD (.vstr ""))
    let r ← buildNewPropsGo g rest
    .ok ((lf, pyStrip (pyStr value)) :: r)

/-- The candidate property map of one record (lines 302-311), including the
synthetic `cover` key mirroring `Banner`. -/
def buildNewProps (mapping : Mapping) (g : Record) : Except String (List (String × String)) :=
  (buildNewPropsGo g mapping).map
    (fun l => l ++ [("cover", pyStrip (pyStr ((aget g "Banner").getD (.vstr ""))))])

/-- Outcome of one processed record: skip, update or create. -/
inductive SyncEvent
  | skipped (name : String)
  | updated (name : String)
  | created (name : String)
deriving DecidableEq

/-- One iteration of the sync loop body (lines 291-324).  The remote lookup is
abstracted as a function from the game name to the found page; `none` events
are records skipped for an empty name.  An `Except.error` is the uncaught
`KeyError` of a template expansion. -/
def syncStep (mapping : Mapping) (find : String → Option Page) (g : Record) :
    Except String (Option SyncEvent) :=
  let name := pyStrip (pyStr ((aget g "Game Name").getD (.vstr "")))
  if name = "" then .ok none
  else
    let sg := safeGame g
    match buildNewProps mapping sg with
    | .error e => .error e
    | .ok new_props =>
      match find name with
      | some page =>
        if properties_equal (extract_page_properties page mapping) new_props mapping then
          .ok (some (.skipped name))
        else .ok (some (.updated name))
      | none => .ok (some (.created name))

/-- The sync run over the record list: the events of the processed records in
order, and the uncaught error (if any) that aborted the run; records after an
aborting record are never reached. -/
def syncGames (mapping : Mapping) (find : String → Option Page) :
    List Record → List SyncEvent × Option String
  | [] => ([], none)
  | g :: rest =>
    match syncStep mapping find g with
    | .error e => ([], some e)
    | .ok ev =>
      let r := syncGames mapping find rest
      ((match ev with | some e => e :: r.1 | none => r.1), r.2)

/-! ### Retry wrappers (`find_existing_page` lines 139-159, `create_page`
lines 222-243) -/

/-- Outcome of one transport attempt: an HTTP response, an
`requests.exceptions.SSLError`, or any other exception (timeout, connection
error, ...) caught by the generic `except Exception` handler. -/
inductive Attempt
  | resp (status : Nat) (results : List Page)
  | ssl
  | exc
deriving DecidableEq

/-- Observable trace of one wrapped remote call: its result, the backoff
sleeps (seconds) performed, and the number of attempts issued. -/
structure CallTrace (α : Type) where
  result : α
  sleeps : List Nat
  tries : Nat
deriving DecidableEq

/-- The retry loop of `find_existing_page` (lines 139-159): `att i` is the
transport outcome of the `i`-th try; `remaining` counts loop iterations left
out of `max_retries = 3`. -/
def findRetryLoop (att : Nat → Attempt) : Nat → Nat → List Nat → CallTrace (Option Page)
  | 0, i, sleeps => ⟨none, sleeps, i⟩
  | remaining+1, i, sleeps =>
    match att i with
    | .resp status results =>
      if status ≠ 200 then ⟨none, sleeps, i+1⟩ else ⟨results.head?, sleeps, i+1⟩
    | .ssl =>
      if 0 < remaining then findRetryLoop att remaining (i+1) (sleeps ++ [(i+1)*2])
      else ⟨none, sleeps, i+1⟩
    | .exc => ⟨none, sleeps, i+1⟩

/-- `find_existing_page` under a given sequence of transport outcomes. -/
def find_existing_page_run (att : Nat → Attempt) : CallTrace (Option Page) :=
  findRetryLoop att 3 0 []

/-- The retry loop of `create_page` (lines 222-243). -/
def createRetryLoop (att : Nat → Attempt) : Nat → Nat → List Nat → CallTrace Bool
  | 0, i, sleeps => ⟨false, sleeps, i⟩
  | remaining+1, i, sleeps =>
    match att i with
    | .resp status _ =>
      if status = 200 ∨ status = 201 then ⟨true, sleeps, i+1⟩ else ⟨false, sleeps, i+1⟩
    | .ssl =>
      if 0 < remaining then createRetryLoop att remaining (i+1) (sleeps ++ [(i+1)*2])
      else ⟨false, sleeps, i+1⟩
    | .exc => ⟨false, sleeps, i+1⟩

/-- `create_page` under a given sequence of transport outcomes. -/
def create_page_run (att : Nat → Attempt) : CallTrace Bool :=
  createRetryLoop att 3 0 []

/-! ### Auxiliary characterizations used by the claim statements -/

/-- Characters occurring in rendered numbers: digits, `-`, `.`. -/
def okNum (c : Char) : Bool := isDig c ∨ c.toNat = 45 ∨ c.toNat = 46

/-- A value whose trimmed string form collapses to the literal `"none"`
(case-insensitively) although its untrimmed form does not — e.g. `" none "`.
On such values the non-date branches of `normalize_value` return a string that
a second normalization collapses to `""`. -/
def noneDrift (v : Value) : Bool :=
  pyLower (pyStrip (pyStr v)) = "none" ∧ pyLower (pyStr v) ≠ "none"

/-- A numeric value that parses to a non-integer whose one-decimal rendering
ends in `.0` (e.g. `3.04`, rendered `"3.0"`); renormalizing that rendering
parses an integer and drops the `.0`. -/
def badTenth (v : Value) : Bool :=
  match pyFloat v with
  | some q => q.den ≠ 1 ∧ (roundHalfEven (10 * q.num.natAbs) q.den).toNat % 10 = 0
  | none => false

/-! ### Character arithmetic -/

theorem toNat_ofNat_small (n : Nat) (h : n < 55296) : (Char.ofNat n).toNat = n := by
  simp only [Char.ofNat]
  rw [dif_pos (Or.inl h)]
  simp only [Char.ofNatAux, Char.toNat, UInt32.toNat]
  simp [BitVec.toNat_ofNatLt]

theorem char_ne_of_toNat_ne {a b : Char} (h : a.toNat ≠ b.toNat) : a ≠ b :=
  fun he => h (congrArg Char.toNat he)

theorem digitChar_toNat (n : Nat) : (digitChar (n % 10)).toNat = 48 + n % 10 :=
  toNat_ofNat_small _ (by omega)

theorem charVal_digitChar (n : Nat) : charVal (digitChar (n % 10)) = n % 10 := by
  simp [charVal, digitChar_toNat]

theorem isDig_digitChar (n : Nat) : isDig (digitChar (n % 10)) = true := by
  simp only [isDig, digitChar_toNat]
  simp only [decide_eq_true_eq]
  omega

theorem isDig_toNat {c : Char} (h : isDig c = true) : 48 ≤ c.toNat ∧ c.toNat ≤ 57 := by
  simpa [isDig] using h

theorem okNum_toNat {c : Char} (h : okNum c = true) :
    (48 ≤ c.toNat ∧ c.toNat ≤ 57) ∨ c.toNat = 45 ∨ c.toNat = 46 := by
  simp only [okNum, Bool.or_eq_true, decide_eq_true_eq] at h
  rcases h with h | h
  · exact Or.inl (isDig_toNat h)
  · exact Or.inr h

theorem okNum_of_isDig {c : Char} (h : isDig c = true) : okNum c = true := by
  simp [okNum, h]

theorem not_isWs_of_okNum {c : Char} (h : okNum c = true) : isWs c = false := by
  rcases okNum_toNat h with h' | h' | h' <;> · simp only [isWs]; simp; omega

theorem lowChar_ne_n_of_okNum {c : Char} (h : okNum c = true) : lowChar c ≠ 'n' := by
  have hv := okNum_toNat h
  unfold lowChar
  split
  · rename_i hr
    apply char_ne_of_toNat_ne
    rw [toNat_ofNat_small _ (by omega)]
    show c.toNat + 32 ≠ 110
    omega
  · apply char_ne_of_toNat_ne
    show c.toNat ≠ 110
    omega

/-! ### Trimming -/

theorem dropWhile_head?_false {p : Char → Bool} :
    ∀ {l : List Char} {c : Char}, (l.dropWhile p).head? = some c → p c = false := by
  intro l
  induction l with
  | nil => intro c h; simp [List.dropWhile] at h
  | cons a t ih =>
    intro c h
    rw [List.dropWhile_cons] at h
    by_cases hp : p a
    · exact ih (by simpa [hp] using h)
    · simp [hp] at h
      rw [← h]
      simpa using hp

theorem dropWhile_eq_self {p : Char → Bool} {l : List Char}
    (h : ∀ c, l.head? = some c → p c = false) : l.dropWhile p = l := by
  cases l with
  | nil => rfl
  | cons a t => rw [List.dropWhile_cons, h a rfl]; simp

theorem dropWhile_eq_self_of_all {p : Char → Bool} {l : List Char}
    (h : ∀ c ∈ l, p c = false) : l.dropWhile p = l := by
  refine dropWhile_eq_self (fun c hc => h c ?_)
  cases l with
  | nil => simp at hc
  | cons a t => simp at hc; simp [hc]

theorem dropWhile_getLast? {p : Char → Bool} :
    ∀ {l : List Char}, l.dropWhile p ≠ [] → (l.dropWhile p).getLast? = l.getLast? := by
  intro l
  induction l with
  | nil => simp
  | cons a t ih =>
    intro hne
    rw [List.dropWhile_cons] at hne ⊢
    by_cases hp : p a
    · simp only [hp, if_true] at hne ⊢
      rw [ih hne]
      have ht : t ≠ [] := by
        intro he; rw [he] at hne; simp [List.dropWhile] at hne
      cases t with
      | nil => exact absurd rfl ht
      | cons b u => simp [List.getLast?_cons_cons]
    · simp [hp]

theorem trimChars_head?_false {l : List Char} {c : Char}
    (h : (trimChars l).head? = some c) : isWs c = false := by
  unfold trimChars at h
  rw [List.head?_reverse] at h
  have hne : ((l.dropWhile isWs).reverse.dropWhile isWs) ≠ [] := by
    intro he; rw [he] at h; simp at h
  rw [dropWhile_getLast? hne, List.getLast?_reverse] at h
  exact dropWhile_head?_false h

theorem trimChars_idem (l : List Char) : trimChars (trimChars l) = trimChars l := by
  conv_lhs => rw [trimChars]
  rw [dropWhile_eq_self (fun c hc => trimChars_head?_false hc)]
  unfold trimChars
  rw [List.reverse_reverse]
  rw [dropWhile_eq_self (fun c hc => dropWhile_head?_false hc)]

theorem trimChars_eq_self {l : List Char} (h : ∀ c ∈ l, isWs c = false) :
    trimChars l = l := by
  unfold trimChars
  rw [dropWhile_eq_self_of_all h]
  rw [dropWhile_eq_self_of_all (fun c hc => h c (List.mem_reverse.mp hc))]
  exact List.reverse_reverse l

theorem pyStrip_mk_eq_self {l : List Char} (h : ∀ c ∈ l, okNum c = true) :
    pyStrip ⟨l⟩ = String.mk l := by
  show String.mk (trimChars l) = String.mk l
  rw [trimChars_eq_self (fun c hc => not_isWs_of_okNum (h c hc))]

theorem pyLower_mk_ne_none {l : List Char} (hne : l ≠ [])
    (hok : ∀ c ∈ l, okNum c = true) : pyLower ⟨l⟩ ≠ "none" := by
  intro h
  have hd : l.map lowChar = ['n', 'o', 'n', 'e'] := congrArg String.data h
  cases l with
  | nil => exact hne rfl
  | cons c t =>
    simp only [List.map_cons, List.cons.injEq] at hd
    exact lowChar_ne_n_of_okNum (hok c (by simp)) hd.1

theorem mk_ne_empty {l : List Char} (hne : l ≠ []) : String.mk l ≠ "" := by
  intro h
  exact hne (congrArg String.data h)

/-! ### Decimal digits: rendering and parsing -/

theorem natDigits_isDig : ∀ (fuel n : Nat), ∀ c ∈ natDigits fuel n, isDig c = true := by
  intro fuel
  induction fuel with
  | zero => intro n c hc; simp [natDigits] at hc
  | succ f ih =>
    intro n c hc
    rw [natDigits] at hc
    by_cases hn : n = 0
    · simp [hn] at hc
    · rw [if_neg hn] at hc
      rcases List.mem_append.mp hc with h | h
      · exact ih _ c h
      · simp at h
        rw [h]
        exact isDig_digitChar n

theorem renderNatL_isDig (n : Nat) : ∀ c ∈ renderNatL n, isDig c = true := by
  intro c hc
  unfold renderNatL at hc
  by_cases hn : n = 0
  · simp [hn] at hc
    rw [hc]; decide
  · rw [if_neg hn] at hc
    exact natDigits_isDig n n c hc

theorem natDigits_ne_nil {fuel n : Nat} (hn : n ≠ 0) (hf : fuel ≠ 0) :
    natDigits fuel n ≠ [] := by
  cases fuel with
  | zero => exact absurd rfl hf
  | succ f => rw [natDigits, if_neg hn]; simp

theorem renderNatL_ne_nil (n : Nat) : renderNatL n ≠ [] := by
  unfold renderNatL
  by_cases hn : n = 0
  · simp [hn]
  · rw [if_neg hn]
    exact natDigits_ne_nil hn hn

theorem parseNatDigits_append (l : List Char) (c : Char) :
    parseNatDigits (l ++ [c]) = parseNatDigits l * 10 + charVal c := by
  simp [parseNatDigits, List.foldl_append]

theorem parseNatDigits_natDigits :
    ∀ (fuel n : Nat), n ≤ fuel → parseNatDigits (natDigits fuel n) = n := by
  intro fuel
  induction fuel with
  | zero =>
    intro n h
    interval_cases n
    simp [natDigits, parseNatDigits]
  | succ f ih =>
    intro n h
    rw [natDigits]
    by_cases hn : n = 0
    · simp [hn, parseNatDigits]
    · rw [if_neg hn, parseNatDigits_append, charVal_digitChar]
      have hdiv : n / 10 ≤ f := by
        have := Nat.div_lt_self (Nat.pos_of_ne_zero hn) (by norm_num : 1 < 10)
        omega
      rw [ih _ hdiv]
      omega

theorem parseNatDigits_renderNatL (n : Nat) : parseNatDigits (renderNatL n) = n := by
  unfold renderNatL
  by_cases hn : n = 0
  · simp [hn]; decide
  · rw [if_neg hn]
    exact parseNatDigits_natDigits n n le_rfl

/-! ### Character classes of the numeric renderings -/

theorem renderNatL_okNum (n : Nat) : ∀ c ∈ renderNatL n, okNum c = true :=
  fun c hc => okNum_of_isDig (renderNatL_isDig n c hc)

theorem renderIntL_okNum (n : Int) : ∀ c ∈ renderIntL n, okNum c = true := by
  intro c hc
  unfold renderIntL at hc
  by_cases hn : n < 0
  · rw [if_pos hn] at hc
    rcases List.mem_cons.mp hc with h | h
    · rw [h]; decide
    · exact okNum_of_isDig (renderNatL_isDig _ c h)
  · rw [if_neg hn] at hc
    exact okNum_of_isDig (renderNatL_isDig _ c hc)

theorem renderIntL_ne_nil (n : Int) : renderIntL n ≠ [] := by
  unfold renderIntL
  by_cases hn : n < 0
  · simp [hn]
  · rw [if_neg hn]
    exact renderNatL_ne_nil _

theorem fracDigits_isDig : ∀ (fuel a b : Nat), ∀ c ∈ fracDigits fuel a b, isDig c = true := by
  intro fuel
  induction fuel with
  | zero => intro a b c hc; simp [fracDigits] at hc
  | succ f ih =>
    intro a b c hc
    rw [fracDigits] at hc
    by_cases ha : a = 0
    · simp [ha] at hc
    · rw [if_neg ha] at hc
      rcases List.mem_cons.mp hc with h | h
      · rw [h]; exact isDig_digitChar _
      · exact ih _ _ c h

theorem renderFloatL_okNum (q : Rat) : ∀ c ∈ renderFloatL q, okNum c = true := by
  intro c hc
  unfold renderFloatL at hc
  by_cases hd : q.den = 1
  · rw [if_pos hd] at hc
    rcases List.mem_append.mp hc with h | h
    · exact renderIntL_okNum _ c h
    · simp at h
      rcases h with h | h <;> · rw [h]; decide
  · rw [if_neg hd] at hc
    rcases List.mem_append.mp hc with h | h
    · rcases List.mem_append.mp h with h' | h'
      · by_cases hn : q.num < 0
        · rw [if_pos hn] at h'
          simp at h'
          rw [h']; decide
        · rw [if_neg hn] at h'
          simp at h'
      · exact okNum_of_isDig (renderNatL_isDig _ c h')
    · rcases List.mem_cons.mp h with h' | h'
      · rw [h']; decide
      · exact okNum_of_isDig (fracDigits_isDig _ _ _ c h')

theorem renderFloatL_ne_nil (q : Rat) : renderFloatL q ≠ [] := by
  unfold renderFloatL
  by_cases hd : q.den = 1
  · rw [if_pos hd]
    simp [renderIntL_ne_nil]
  · rw [if_neg hd]
    intro h
    rcases List.append_eq_nil.mp h with ⟨h1, _⟩
    rcases List.append_eq_nil.mp h1 with ⟨_, h3⟩
    exact renderNatL_ne_nil _ h3

theorem oneDecL_okNum (q : Rat) : ∀ c ∈ oneDecL q, okNum c = true := by
  intro c hc
  unfold oneDecL at hc
  simp only [List.mem_append] at hc
  rcases hc with (h | h) | h
  · by_cases hn : q.num < 0
    · rw [if_pos hn] at h
      simp at h
      rw [h]; decide
    · rw [if_neg hn] at h
      simp at h
  · exact okNum_of_isDig (renderNatL_isDig _ c h)
  · rcases List.mem_cons.mp h with h' | h'
    · rw [h']; decide
    · simp at h'
      rw [h']
      exact okNum_of_isDig (isDig_digitChar _)

theorem oneDecL_ne_nil (q : Rat) : oneDecL q ≠ [] := by
  unfold oneDecL
  intro h
  rcases List.append_eq_nil.mp h with ⟨h1, _⟩
  rcases List.append_eq_nil.mp h1 with ⟨_, h3⟩
  exact renderNatL_ne_nil _ h3

/-! ### The line-62 guard on rendered values -/

theorem isEmptyLike_mk_false {l : List Char} (hne : l ≠ [])
    (hok : ∀ c ∈ l, okNum c = true) : isEmptyLike (.vstr ⟨l⟩) = false := by
  rw [Bool.eq_false_iff]
  intro h
  simp only [isEmptyLike, Bool.or_eq_true, decide_eq_true_eq] at h
  rcases h with h | h | h | h
  · simp at h
  · simp only [Value.vstr.injEq] at h
    exact mk_ne_empty hne h
  · rw [show pyStr (Value.vstr ⟨l⟩) = ⟨l⟩ from rfl, pyStrip_mk_eq_self hok] at h
    exact mk_ne_empty hne h
  · rw [show pyStr (Value.vstr ⟨l⟩) = ⟨l⟩ from rfl] at h
    exact pyLower_mk_ne_none hne hok h

theorem isEmptyLike_vint (n : Int) : isEmptyLike (.vint n) = false := by
  rw [Bool.eq_false_iff]
  intro h
  simp only [isEmptyLike, Bool.or_eq_true, decide_eq_true_eq] at h
  rcases h with h | h | h | h
  · simp at h
  · simp at h
  · rw [show pyStr (Value.vint n) = ⟨renderIntL n⟩ from rfl,
      pyStrip_mk_eq_self (renderIntL_okNum n)] at h
    exact mk_ne_empty (renderIntL_ne_nil n) h
  · rw [show pyStr (Value.vint n) = ⟨renderIntL n⟩ from rfl] at h
    exact pyLower_mk_ne_none (renderIntL_ne_nil n) (renderIntL_okNum n) h

theorem isEmptyLike_vfloat (q : Rat) : isEmptyLike (.vfloat q) = false := by
  rw [Bool.eq_false_iff]
  intro h
  simp only [isEmptyLike, Bool.or_eq_true, decide_eq_true_eq] at h
  rcases h with h | h | h | h
  · simp at h
  · simp at h
  · rw [show pyStr (Value.vfloat q) = ⟨renderFloatL q⟩ from rfl,
      pyStrip_mk_eq_self (renderFloatL_okNum q)] at h
    exact mk_ne_empty (renderFloatL_ne_nil q) h
  · rw [show pyStr (Value.vfloat q) = ⟨renderFloatL q⟩ from rfl] at h
    exact pyLower_mk_ne_none (renderFloatL_ne_nil q) (renderFloatL_okNum q) h

theorem normalize_value_emptyLike {v : Value} (t : String) (h : isEmptyLike v = true) :
    normalize_value v t = "" := by
  unfold normalize_value
  rw [if_pos h]

/-! ### Float literal parsing: round trips -/

theorem data_mk (l : List Char) : (String.mk l).data = l := rfl

theorem takeWhile_all {p : Char → Bool} :
    ∀ {l : List Char}, (∀ c ∈ l, p c = true) → l.takeWhile p = l := by
  intro l
  induction l with
  | nil => intro _; rfl
  | cons a t ih =>
    intro h
    rw [List.takeWhile_cons, h a (by simp)]
    simp only [ite_true]
    rw [ih (fun c hc => h c (by simp [hc]))]

theorem dropWhile_all {p : Char → Bool} :
    ∀ {l : List Char}, (∀ c ∈ l, p c = true) → l.dropWhile p = [] := by
  intro l
  induction l with
  | nil => intro _; rfl
  | cons a t ih =>
    intro h
    rw [List.dropWhile_cons, h a (by simp)]
    simp only [ite_true]
    exact ih (fun c hc => h c (by simp [hc]))

theorem span_all {p : Char → Bool} {l : List Char} (h : ∀ c ∈ l, p c = true) :
    l.span p = (l, []) := by
  rw [List.span_eq_take_drop, takeWhile_all h, dropWhile_all h]

theorem takeWhile_append_stop {p : Char → Bool} {x : Char} (hx : p x = false) :
    ∀ {pre suf : List Char}, (∀ c ∈ pre, p c = true) →
      (pre ++ x :: suf).takeWhile p = pre := by
  intro pre
  induction pre with
  | nil => intro suf _; simp [List.takeWhile_cons, hx]
  | cons a t ih =>
    intro suf h
    rw [List.cons_append, List.takeWhile_cons, h a (by simp)]
    simp only [ite_true]
    rw [ih (fun c hc => h c (by simp [hc]))]

theorem dropWhile_append_stop {p : Char → Bool} {x : Char} (hx : p x = false) :
    ∀ {pre suf : List Char}, (∀ c ∈ pre, p c = true) →
      (pre ++ x :: suf).dropWhile p = x :: suf := by
  intro pre
  induction pre with
  | nil => intro suf _; simp [List.dropWhile_cons, hx]
  | cons a t ih =>
    intro suf h
    rw [List.cons_append, List.dropWhile_cons, h a (by simp)]
    simp only [ite_true]
    exact ih (fun c hc => h c (by simp [hc]))

theorem span_append_stop {p : Char → Bool} {x : Char} {pre suf : List Char}
    (hx : p x = false) (h : ∀ c ∈ pre, p c = true) :
    (pre ++ x :: suf).span p = (pre, x :: suf) := by
  rw [List.span_eq_take_drop, takeWhile_append_stop hx h, dropWhile_append_stop hx h]

theorem parseSign_neg (r : List Char) : parseSign ('-' :: r) = (true, r) := by
  simp [parseSign]

theorem parseSign_cons_dig {c : Char} (r : List Char) (h : isDig c = true) :
    parseSign (c :: r) = (false, c :: r) := by
  have hv := isDig_toNat h
  have h1 : c ≠ '-' := char_ne_of_toNat_ne (by have : ('-').toNat = 45 := rfl; omega)
  have h2 : c ≠ '+' := char_ne_of_toNat_ne (by have : ('+').toNat = 43 := rfl; omega)
  simp [parseSign, h1, h2]

theorem isDig_dot : isDig '.' = false := by decide

/-- Shape lemma for `parsePyFloat` on a signed all-digit literal. -/
theorem parsePyFloat_int_shape (neg : Bool) (ip : List Char) (hip : ip ≠ [])
    (h1 : ∀ c ∈ ip, isDig c = true) :
    parsePyFloat ⟨(if neg then ['-'] else []) ++ ip⟩ =
      some (mkRat
        (if neg then -(parseNatDigits ip : Int) else (parseNatDigits ip : Int)) 1) := by
  have hokL : ∀ c ∈ (if neg then ['-'] else []) ++ ip, okNum c = true := by
    intro c hc
    rcases List.mem_append.mp hc with hc' | hc'
    · rcases neg with _ | _
      · simp at hc'
      · simp at hc'
        rw [hc']; decide
    · exact okNum_of_isDig (h1 c hc')
  have htrim : trimChars ((if neg then ['-'] else []) ++ ip) =
      (if neg then ['-'] else []) ++ ip :=
    trimChars_eq_self (fun c hc => not_isWs_of_okNum (hokL c hc))
  have hsign : parseSign ((if neg then ['-'] else []) ++ ip) = (neg, ip) := by
    rcases neg with _ | _
    · simp only [Bool.false_eq_true, if_false, List.nil_append]
      cases ip with
      | nil => exact absurd rfl hip
      | cons a t => exact parseSign_cons_dig _ (h1 a (by simp))
    · simp only [if_true, List.cons_append, List.nil_append]
      exact parseSign_neg _
  have hspan : ip.span isDig = (ip, []) := span_all h1
  unfold parsePyFloat
  simp only [data_mk, htrim, hsign, hspan]
  rw [if_neg (by simp [hip])]
  simp only [parseExp]
  simp [hip, Int.mul_one]

/-- Shape lemma for `parsePyFloat` on a signed literal with digits, a dot and
a nonempty all-digit fraction. -/
theorem parsePyFloat_frac_shape (neg : Bool) (ip fp : List Char) (hip : ip ≠ [])
    (hfp : fp ≠ []) (h1 : ∀ c ∈ ip, isDig c = true) (h2 : ∀ c ∈ fp, isDig c = true) :
    parsePyFloat ⟨(if neg then ['-'] else []) ++ ip ++ '.' :: fp⟩ =
      some (mkRat
        (if neg then -(parseNatDigits (ip ++ fp) : Int) else (parseNatDigits (ip ++ fp) : Int))
        (10 ^ fp.length)) := by
  have hokL : ∀ c ∈ (if neg then ['-'] else []) ++ ip ++ '.' :: fp, okNum c = true := by
    intro c hc
    rcases List.mem_append.mp hc with hc' | hc'
    · rcases List.mem_append.mp hc' with hc'' | hc''
      · rcases neg with _ | _
        · simp at hc''
        · simp at hc''
          rw [hc'']; decide
      · exact okNum_of_isDig (h1 c hc'')
    · rcases List.mem_cons.mp hc' with h' | h'
      · rw [h']; decide
      · exact okNum_of_isDig (h2 c h')
  have htrim : trimChars ((if neg then ['-'] else []) ++ ip ++ '.' :: fp) =
      (if neg then ['-'] else []) ++ ip ++ '.' :: fp :=
    trimChars_eq_self (fun c hc => not_isWs_of_okNum (hokL c hc))
  have hsign : parseSign ((if neg then ['-'] else []) ++ ip ++ '.' :: fp) =
      (neg, ip ++ '.' :: fp) := by
    rcases neg with _ | _
    · simp only [Bool.false_eq_true, if_false, List.nil_append]
      cases ip with
      | nil => exact absurd rfl hip
      | cons a t =>
        rw [List.cons_append]
        exact parseSign_cons_dig _ (h1 a (by simp))
    · simp only [if_true, List.cons_append, List.nil_append]
      exact parseSign_neg _
  have hspan : (ip ++ '.' :: fp).span isDig = (ip, '.' :: fp) :=
    span_append_stop isDig_dot h1
  have hfspan : fp.span isDig = (fp, []) := span_all h2
  have hlen : 1 ≤ (fp.length : Int) := by
    have := List.length_pos.mpr hfp
    omega
  unfold parsePyFloat
  simp only [data_mk, htrim, hsign, hspan, hfspan, if_true]
  rw [if_neg (by simp [hip])]
  simp only [parseExp]
  rw [if_neg (show ¬(0 : Int) ≤ 0 - (fp.length : Int) by omega)]
  have he : (-(0 - (fp.length : Int))).toNat = fp.length := by omega
  rw [he]

theorem parsePyFloat_renderIntL (k : Int) : parsePyFloat ⟨renderIntL k⟩ = some ((k : Rat)) := by
  by_cases hk : k < 0
  · have h1 : renderIntL k = (if true then ['-'] else []) ++ renderNatL k.natAbs := by
      simp [renderIntL, hk]
    rw [h1, parsePyFloat_int_shape true _ (renderNatL_ne_nil _) (renderNatL_isDig _)]
    rw [if_pos rfl, parseNatDigits_renderNatL, Rat.mkRat_one]
    have h2 : -((k.natAbs : Nat) : Int) = k := by omega
    rw [h2]
  · have h1 : renderIntL k = (if false then ['-'] else []) ++ renderNatL k.natAbs := by
      simp [renderIntL, hk]
    rw [h1, parsePyFloat_int_shape false _ (renderNatL_ne_nil _) (renderNatL_isDig _)]
    rw [if_neg (by simp), parseNatDigits_renderNatL, Rat.mkRat_one]
    have h2 : ((k.natAbs : Nat) : Int) = k := by omega
    rw [h2]

theorem parsePyFloat_oneDecL (q : Rat) :
    parsePyFloat ⟨oneDecL q⟩ =
      some (mkRat
        (if q.num < 0 then -(((roundHalfEven (10 * q.num.natAbs) q.den).toNat : Int))
         else ((roundHalfEven (10 * q.num.natAbs) q.den).toNat : Int)) 10) := by
  set n := (roundHalfEven (10 * q.num.natAbs) q.den).toNat with hn
  have hdig : ∀ c ∈ [digitChar (n % 10)], isDig c = true := by
    intro c hc
    simp at hc
    rw [hc]
    exact isDig_digitChar _
  have hparse : parseNatDigits (renderNatL (n / 10) ++ [digitChar (n % 10)]) = n := by
    rw [parseNatDigits_append, parseNatDigits_renderNatL, charVal_digitChar]
    omega
  by_cases hq : q.num < 0
  · have h1 : oneDecL q =
        (if true then ['-'] else []) ++ renderNatL (n / 10) ++ '.' :: [digitChar (n % 10)] := by
      simp only [oneDecL]
      rw [← hn, if_pos hq]
      simp
    rw [h1, parsePyFloat_frac_shape true _ _ (renderNatL_ne_nil _) (by simp)
      (renderNatL_isDig _) hdig]
    rw [if_pos rfl, if_pos hq, hparse]
    norm_num
  · have h1 : oneDecL q =
        (if false then ['-'] else []) ++ renderNatL (n / 10) ++ '.' :: [digitChar (n % 10)] := by
      simp only [oneDecL]
      rw [← hn, if_neg hq]
      simp
    rw [h1, parsePyFloat_frac_shape false _ _ (renderNatL_ne_nil _) (by simp)
      (renderNatL_isDig _) hdig]
    rw [if_neg (by simp), if_neg hq, hparse]
    norm_num

/-! ### `mkRat` and rounding arithmetic -/

theorem mkRat_ten_cross (m : Int) :
    10 * (mkRat m 10).num = m * ((mkRat m 10).den : Int) := by
  have hden : ((mkRat m 10).den : Rat) ≠ 0 := by
    exact_mod_cast (mkRat m 10).den_nz
  have hnum : ((mkRat m 10).num : Rat) = mkRat m 10 * ((mkRat m 10).den : Rat) :=
    (div_eq_iff hden).mp (Rat.num_div_den _)
  have hval : mkRat m 10 * (10 : Rat) = (m : Rat) := by
    have h10 : ((10 : Nat) : Rat) = (10 : Rat) := by norm_num
    rw [Rat.mkRat_eq_div m 10, h10, div_mul_cancel₀ _ (by norm_num : (10:Rat) ≠ 0)]
  have key : ((10 * (mkRat m 10).num : Int) : Rat) =
      ((m * ((mkRat m 10).den : Int) : Int) : Rat) := by
    push_cast
    rw [hnum, ← hval]
    ring
  exact_mod_cast key

theorem mkRat_ten_den_ne_one {m : Int} (h : m % 10 ≠ 0) : (mkRat m 10).den ≠ 1 := by
  intro hd
  have := mkRat_ten_cross m
  rw [hd] at this
  omega

theorem roundHalfEven_mul (n : Int) (b : Nat) (hb : 0 < b) :
    roundHalfEven (n * b) b = n := by
  simp only [roundHalfEven]
  have hb' : (b : Int) ≠ 0 := by omega
  have h1 : (n * (b : Int)).ediv b = n := Int.mul_ediv_cancel n hb'
  have h2 : (n * (b : Int)).emod b = 0 := Int.mul_emod_left n b
  rw [h1, h2]
  rw [if_pos (by omega)]

/-! ### Date parsing and formatting -/

theorem fmtMinute_data (t : PyDateTime) : (fmtMinute t).data =
    [digitChar (t.year / 1000 % 10), digitChar (t.year / 100 % 10),
     digitChar (t.year / 10 % 10), digitChar (t.year % 10), '-',
     digitChar (t.month / 10 % 10), digitChar (t.month % 10), '-',
     digitChar (t.day / 10 % 10), digitChar (t.day % 10), 'T',
     digitChar (t.hour / 10 % 10), digitChar (t.hour % 10), ':',
     digitChar (t.minute / 10 % 10), digitChar (t.minute % 10)] := rfl

theorem d2_digits (x : Nat) :
    d2 (digitChar (x / 10 % 10)) (digitChar (x % 10)) = some (x / 10 % 10 * 10 + x % 10) := by
  unfold d2
  rw [if_pos ⟨isDig_digitChar _, isDig_digitChar _⟩]
  rw [show charVal (digitChar (x / 10 % 10)) = x / 10 % 10 from charVal_digitChar _,
    charVal_digitChar]

theorem d2_pad2 {x : Nat} (h : x ≤ 99) :
    d2 (digitChar (x / 10 % 10)) (digitChar (x % 10)) = some x := by
  rw [d2_digits]
  congr 1
  omega

theorem d4_pad4 {x : Nat} (h : x ≤ 9999) :
    d4 (digitChar (x / 1000 % 10)) (digitChar (x / 100 % 10)) (digitChar (x / 10 % 10))
      (digitChar (x % 10)) = some x := by
  unfold d4
  rw [if_pos ⟨isDig_digitChar _, isDig_digitChar _, isDig_digitChar _, isDig_digitChar _⟩]
  rw [show charVal (digitChar (x / 1000 % 10)) = x / 1000 % 10 from charVal_digitChar _,
    show charVal (digitChar (x / 100 % 10)) = x / 100 % 10 from charVal_digitChar _,
    show charVal (digitChar (x / 10 % 10)) = x / 10 % 10 from charVal_digitChar _,
    charVal_digitChar]
  congr 1
  omega

theorem daysInMonth_le (y m : Nat) : daysInMonth y m ≤ 31 := by
  unfold daysInMonth
  split
  · split <;> omega
  · split <;> omega

theorem validDT_fields {t : PyDateTime} (hv : validDT t = true) :
    1 ≤ t.year ∧ t.year ≤ 9999 ∧ 1 ≤ t.month ∧ t.month ≤ 12 ∧
    1 ≤ t.day ∧ t.day ≤ daysInMonth t.year t.month ∧
    t.hour ≤ 23 ∧ t.minute ≤ 59 ∧ t.second ≤ 59 := by
  simpa [validDT] using hv

theorem pyFromIso_fmtMinute {t : PyDateTime} (hv : validDT t = true) :
    pyFromIso (fmtMinute t) = some ⟨t.year, t.month, t.day, t.hour, t.minute, 0⟩ := by
  obtain ⟨h1, h2, h3, h4, h5, h6, h7, h8, _⟩ := validDT_fields hv
  have hday : t.day ≤ 99 := le_trans h6 (le_trans (daysInMonth_le _ _) (by omega))
  unfold pyFromIso
  rw [fmtMinute_data]
  simp only [pyDateShape]
  rw [d4_pad4 h2, d2_pad2 (by omega : t.month ≤ 99), d2_pad2 hday]
  simp only [parseTime]
  rw [d2_pad2 (by omega : t.hour ≤ 99), d2_pad2 (by omega : t.minute ≤ 99)]
  have hv2 : validDT ⟨t.year, t.month, t.day, t.hour, t.minute, 0⟩ = true := by
    simp only [validDT, decide_eq_true_eq]
    omega
  simp [hv2]

theorem flatten_map_singleton : ∀ l : List Char, (l.map (fun c => [c])).flatten = l := by
  intro l
  induction l with
  | nil => rfl
  | cons a t ih => simp [ih]

theorem replaceZ_eq_self {s : String} (h : ∀ c ∈ s.data, c ≠ 'Z') : replaceZ s = s := by
  unfold replaceZ
  have hmap : s.data.map (fun c => if c = 'Z' then ['+', '0', '0', ':', '0', '0'] else [c]) =
      s.data.map (fun c => [c]) :=
    List.map_congr_left (fun c hc => by rw [if_neg (h c hc)])
  rw [hmap, flatten_map_singleton]

theorem fmtMinute_chars {t : PyDateTime} : ∀ c ∈ (fmtMinute t).data,
    isDig c = true ∨ c = '-' ∨ c = 'T' ∨ c = ':' := by
  rw [fmtMinute_data]
  intro c hc
  simp only [List.mem_cons, List.not_mem_nil, or_false] at hc
  rcases hc with h|h|h|h|h|h|h|h|h|h|h|h|h|h|h|h <;>
    subst h <;>
    first
      | (left; exact isDig_digitChar _)
      | (right; simp)

theorem fmtMinute_noWs {t : PyDateTime} : ∀ c ∈ (fmtMinute t).data, isWs c = false := by
  intro c hc
  rcases fmtMinute_chars c hc with h | h | h | h
  · exact not_isWs_of_okNum (okNum_of_isDig h)
  · rw [h]; decide
  · rw [h]; decide
  · rw [h]; decide

theorem fmtMinute_noZ {t : PyDateTime} : ∀ c ∈ (fmtMinute t).data, c ≠ 'Z' := by
  intro c hc
  rcases fmtMinute_chars c hc with h | h | h | h
  · have := isDig_toNat h
    exact char_ne_of_toNat_ne (by have : ('Z').toNat = 90 := rfl; omega)
  · rw [h]; decide
  · rw [h]; decide
  · rw [h]; decide

theorem lowChar_of_isDig {c : Char} (h : isDig c = true) : lowChar c ≠ 'n' := by
  have hv := isDig_toNat h
  unfold lowChar
  rw [if_neg (by omega)]
  exact char_ne_of_toNat_ne (by have : ('n').toNat = 110 := rfl; omega)

theorem pyLower_cons_ne_none {c : Char} (t : List Char) (h : lowChar c ≠ 'n') :
    pyLower ⟨c :: t⟩ ≠ "none" := by
  intro he
  have hd : (c :: t).map lowChar = ['n', 'o', 'n', 'e'] := congrArg String.data he
  simp only [List.map_cons, List.cons.injEq] at hd
  exact h hd.1

theorem pyLower_none_shape {s : String} (h : pyLower s = "none") :
    ∃ c1 c2 c3 c4, s.data = [c1, c2, c3, c4] ∧ lowChar c1 = 'n' ∧ lowChar c2 = 'o' ∧
      lowChar c3 = 'n' ∧ lowChar c4 = 'e' := by
  have hd : s.data.map lowChar = ['n', 'o', 'n', 'e'] := congrArg String.data h
  cases hl : s.data with
  | nil => rw [hl] at hd; simp at hd
  | cons c1 t1 =>
    cases t1 with
    | nil => rw [hl] at hd; simp at hd
    | cons c2 t2 =>
      cases t2 with
      | nil => rw [hl] at hd; simp at hd
      | cons c3 t3 =>
        cases t3 with
        | nil => rw [hl] at hd; simp at hd
        | cons c4 t4 =>
          cases t4 with
          | nil =>
            rw [hl] at hd
            simp only [List.map_cons, List.map_nil, List.cons.injEq, and_true] at hd
            exact ⟨c1, c2, c3, c4, rfl, hd.1, hd.2.1, hd.2.2.1, hd.2.2.2⟩
          | cons c5 t5 => rw [hl] at hd; simp at hd

theorem lowChar_in_none_ne_Z {c x : Char} (hx : x = 'n' ∨ x = 'o' ∨ x = 'e')
    (h : lowChar c = x) : c ≠ 'Z' := by
  intro he
  subst he
  have : lowChar 'Z' = 'z' := by decide
  rw [this] at h
  rcases hx with h' | h' | h' <;> (subst h'; exact absurd h (by decide))

theorem pyDateShape_four (a b c d : Char) : pyDateShape [a, b, c, d] = none := rfl

theorem lowChar_in_none_not_ws {c x : Char} (hx : x = 'n' ∨ x = 'o' ∨ x = 'e')
    (h : lowChar c = x) : isWs c = false := by
  have hxt : x.toNat = 110 ∨ x.toNat = 111 ∨ x.toNat = 101 := by
    rcases hx with h' | h' | h' <;> subst h' <;> decide
  have hval : c.toNat = x.toNat ∨ c.toNat + 32 = x.toNat := by
    unfold lowChar at h
    split at h
    · right
      rename_i hr
      have h32 : (Char.ofNat (c.toNat + 32)).toNat = c.toNat + 32 :=
        toNat_ofNat_small _ (by omega)
      rw [← h32]
      exact congrArg Char.toNat h
    · left
      exact congrArg Char.toNat h
  simp only [isWs]
  simp only [decide_eq_false_iff_not]
  omega

theorem noneish_parse_none {s : String} (h : pyLower s = "none") :
    pyFromIso (replaceZ (pyStrip s)) = none := by
  obtain ⟨c1, c2, c3, c4, hdata, hn1, hn2, hn3, hn4⟩ := pyLower_none_shape h
  have hstrip : pyStrip s = s := by
    show String.mk (trimChars s.data) = s
    rw [trimChars_eq_self (by
      intro c hc
      rw [hdata] at hc
      simp only [List.mem_cons, List.not_mem_nil, or_false] at hc
      rcases hc with h'|h'|h'|h' <;> subst h'
      · exact lowChar_in_none_not_ws (Or.inl rfl) hn1
      · exact lowChar_in_none_not_ws (Or.inr (Or.inl rfl)) hn2
      · exact lowChar_in_none_not_ws (Or.inl rfl) hn3
      · exact lowChar_in_none_not_ws (Or.inr (Or.inr rfl)) hn4)]
  rw [hstrip]
  have hz : replaceZ s = s := replaceZ_eq_self (by
    intro c hc
    rw [hdata] at hc
    simp only [List.mem_cons, List.not_mem_nil, or_false] at hc
    rcases hc with h'|h'|h'|h' <;> subst h'
    · exact lowChar_in_none_ne_Z (Or.inl rfl) hn1
    · exact lowChar_in_none_ne_Z (Or.inr (Or.inl rfl)) hn2
    · exact lowChar_in_none_ne_Z (Or.inl rfl) hn3
    · exact lowChar_in_none_ne_Z (Or.inr (Or.inr rfl)) hn4)
  rw [hz]
  unfold pyFromIso
  rw [hdata, pyDateShape_four]

/-! ### Branch lemmas for `normalize_value` -/

theorem pyStrip_idem (s : String) : pyStrip (pyStrip s) = pyStrip s :=
  congrArg String.mk (trimChars_idem s.data)

theorem parsePyFloat_pyStrip (s : String) : parsePyFloat (pyStrip s) = parsePyFloat s := by
  unfold parsePyFloat
  rw [show (pyStrip s).data = trimChars s.data from rfl, trimChars_idem]

theorem normalize_date_eq {v : Value} (hEL : isEmptyLike v = false) :
    normalize_value v "date" =
      (if pyStrip (pyStr v) = "" ∨ pyLower (pyStrip (pyStr v)) = "none" then ""
       else
         match pyFromIso (replaceZ (pyStrip (pyStr v))) with
         | some dt => fmtMinute dt
         | none => "") := by
  unfold normalize_value
  rw [if_neg (by simp [hEL]), if_pos rfl]

theorem normalize_number_eq {v : Value} (hEL : isEmptyLike v = false) :
    normalize_value v "number" =
      (match pyFloat v with
       | some q => if q.den = 1 then renderInt q.num else oneDecStr q
       | none => pyStrip (pyStr v)) := by
  unfold normalize_value
  rw [if_neg (by simp [hEL]), if_neg (by decide), if_pos rfl]

theorem normalize_generic_eq {v : Value} {t : String} (hEL : isEmptyLike v = false)
    (h1 : t ≠ "date") (h2 : t ≠ "number") :
    normalize_value v t = (match v with | .vstr s => pyStrip s | v => pyStr v) := by
  unfold normalize_value
  rw [if_neg (by simp [hEL]), if_neg h1, if_neg h2]
  cases v <;> rfl

theorem pyFromIso_valid {s : String} {dt : PyDateTime} (h : pyFromIso s = some dt) :
    validDT dt = true := by
  unfold pyFromIso at h
  cases hs : pyDateShape s.data with
  | none => rw [hs] at h; simp at h
  | some t' =>
    rw [hs] at h
    by_cases hv : validDT t'
    · simp only [hv, if_true] at h
      simp at h
      rw [← h]
      exact hv
    · simp [hv] at h

theorem fmtMinute_eq_mk (t : PyDateTime) : fmtMinute t = String.mk
    [digitChar (t.year / 1000 % 10), digitChar (t.year / 100 % 10),
     digitChar (t.year / 10 % 10), digitChar (t.year % 10), '-',
     digitChar (t.month / 10 % 10), digitChar (t.month % 10), '-',
     digitChar (t.day / 10 % 10), digitChar (t.day % 10), 'T',
     digitChar (t.hour / 10 % 10), digitChar (t.hour % 10), ':',
     digitChar (t.minute / 10 % 10), digitChar (t.minute % 10)] :=
  congrArg String.mk (fmtMinute_data t)

/-! ### Dictionary lookup lemmas -/

theorem aget_cons_ne {α : Type} (k k' : String) (v : α) (m : List (String × α))
    (h : k' ≠ k) : aget ((k, v) :: m) k' = aget m k' := by
  unfold aget
  rw [List.find?_cons_of_neg _ (by simp; exact fun he => h he.symm)]

theorem aget_cons_self {α : Type} (k : String) (v : α) (m : List (String × α)) :
    aget ((k, v) :: m) k = some v := by
  unfold aget
  rw [List.find?_cons_of_pos _ (by simp)]

theorem aget_append {α : Type} (m1 m2 : List (String × α)) (k : String) :
    aget (m1 ++ m2) k = match aget m1 k with | some x => some x | none => aget m2 k := by
  induction m1 with
  | nil => simp [aget]
  | cons p rest ih =>
    by_cases hk : p.1 = k
    · cases p with
      | mk k1 v1 =>
        simp only at hk
        subst hk
        rw [List.cons_append, aget_cons_self, aget_cons_self]
    · cases p with
      | mk k1 v1 =>
        simp only at hk
        rw [List.cons_append, aget_cons_ne _ _ _ _ (fun he => hk he.symm),
          aget_cons_ne _ _ _ _ (fun he => hk he.symm), ih]

theorem aget_singleton {α : Type} (k k' : String) (v : α) :
    aget [(k, v)] k' = if k' = k then some v else none := by
  by_cases h : k' = k
  · subst h
    rw [aget_cons_self, if_pos rfl]
  · rw [aget_cons_ne _ _ _ _ h, if_neg h]
    rfl

/-! ### Diff engine lemmas -/

theorem propsEqualKeys_iff (existing new : List (String × String)) (mapping : Mapping) :
    ∀ keys : List String,
      (propsEqualKeys existing new mapping keys = true ↔
        ∀ k ∈ keys,
          normalize_value (ovalue (aget existing k)) (fieldTypeOf mapping k) =
          normalize_value (ovalue (aget new k)) (fieldTypeOf mapping k)) := by
  intro keys
  induction keys with
  | nil => simp [propsEqualKeys]
  | cons key rest ih =>
    simp only [propsEqualKeys]
    by_cases h : normalize_value (ovalue (aget existing key)) (fieldTypeOf mapping key) =
        normalize_value (ovalue (aget new key)) (fieldTypeOf mapping key)
    · rw [if_pos h]
      constructor
      · intro hp k hk
        rcases List.mem_cons.mp hk with he | hk'
        · rw [he]; exact h
        · exact ih.mp hp k hk'
      · intro hall
        exact ih.mpr (fun k hk => hall k (by simp [hk]))
    · rw [if_neg h]
      exact iff_of_false (by simp) (fun hall => h (hall key (by simp)))

theorem propsEqualKeys_exist_cons (existing new : List (String × String)) (mapping : Mapping)
    (k : String) (v : String) :
    ∀ keys : List String, k ∉ keys →
      propsEqualKeys ((k, v) :: existing) new mapping keys =
      propsEqualKeys existing new mapping keys := by
  intro keys
  induction keys with
  | nil => intro _; rfl
  | cons key rest ih =>
    intro hk
    have hne : key ≠ k := fun he => hk (by simp [he])
    simp only [propsEqualKeys]
    rw [aget_cons_ne _ _ _ _ hne]
    by_cases h : normalize_value (ovalue (aget existing key)) (fieldTypeOf mapping key) =
        normalize_value (ovalue (aget new key)) (fieldTypeOf mapping key)
    · rw [if_pos h, if_pos h, ih (fun hm => hk (by simp [hm]))]
    · rw [if_neg h, if_neg h]

/-! ### Claim theorems -/

/-- C7: `normalize_value` maps `None`, the empty string, any case variant of
the literal string `"none"`, and any whitespace-only string to the empty
normalized value, for every wire type. -/
theorem C7_empty_none_collapse (t : String) :
    normalize_value .vnull t = "" ∧ normalize_value (.vstr "") t = "" ∧
    (∀ s : String, pyLower s = "none" → normalize_value (.vstr s) t = "") ∧
    (∀ s : String, pyStrip s = "" → normalize_value (.vstr s) t = "") := by
  refine ⟨normalize_value_emptyLike t (by decide), normalize_value_emptyLike t (by decide),
    ?_, ?_⟩
  · intro s h
    exact normalize_value_emptyLike t (by simp [isEmptyLike, pyStr, h])
  · intro s h
    exact normalize_value_emptyLike t (by simp [isEmptyLike, pyStr, h])

/-- Witness for C7 at concrete wire types and inputs. -/
theorem C7_witness :
    normalize_value .vnull "number" = "" ∧ normalize_value (.vstr "") "url" = "" ∧
    pyLower "NoNe" = "none" ∧ normalize_value (.vstr "NoNe") "date" = "" ∧
    pyStrip " \t " = "" ∧ normalize_value (.vstr " \t ") "text" = "" :=
  ⟨(C7_empty_none_collapse "number").1, (C7_empty_none_collapse "url").2.1, by decide,
    (C7_empty_none_collapse "date").2.2.1 "NoNe" (by decide), by decide,
    (C7_empty_none_collapse "text").2.2.2 " \t " (by decide)⟩

/-- C3: `properties_equal` returns true iff every key of the candidate map
normalizes equal on both sides under that key's configured wire type
(defaulting to `text` for unmapped keys such as the synthetic `cover`); a key
present only in `existing` never changes the verdict, and any mismatching key
forces the result to false regardless of the keys after it (the loop
short-circuits at the first mismatch by construction). -/
theorem C3_properties_equal_iff (existing new : List (String × String)) (mapping : Mapping) :
    (properties_equal existing new mapping = true ↔
      ∀ k ∈ new.map (fun p => p.1),
        normalize_value (ovalue (aget existing k)) (fieldTypeOf mapping k) =
        normalize_value (ovalue (aget new k)) (fieldTypeOf mapping k)) ∧
    (∀ (k v : String), k ∉ new.map (fun p => p.1) →
      properties_equal ((k, v) :: existing) new mapping =
      properties_equal existing new mapping) ∧
    (∀ k ∈ new.map (fun p => p.1),
      normalize_value (ovalue (aget existing k)) (fieldTypeOf mapping k) ≠
        normalize_value (ovalue (aget new k)) (fieldTypeOf mapping k) →
      properties_equal existing new mapping = false) := by
  refine ⟨propsEqualKeys_iff existing new mapping _, ?_, ?_⟩
  · intro k v hk
    exact propsEqualKeys_exist_cons existing new mapping k v _ hk
  · intro k hk hne
    rw [Bool.eq_false_iff]
    intro htrue
    exact hne ((propsEqualKeys_iff existing new mapping _).mp htrue k hk)

/-- Witness for C3 on a concrete diff: a null-decoded number versus an empty
local value (equal), an extra key in `existing` (ignored), and a genuine
mismatch (false). -/
theorem C3_witness :
    properties_equal [("h", "None")] [("h", ""), ("cover", "")]
      [("h", ⟨"H", some "number", none⟩)] = true ∧
    properties_equal (("zzz", "7") :: [("h", "None")]) [("h", ""), ("cover", "")]
      [("h", ⟨"H", some "number", none⟩)] = true ∧
    properties_equal [("h", "1")] [("h", "2")] [("h", ⟨"H", some "number", none⟩)] = false := by
  refine ⟨?_, ?_, ?_⟩
  · exact (C3_properties_equal_iff [("h", "None")] [("h", ""), ("cover", "")] _).1.mpr
      (by decide)
  · rw [(C3_properties_equal_iff [("h", "None")] [("h", ""), ("cover", "")] _).2.1 "zzz" "7"
      (by decide)]
    exact (C3_properties_equal_iff [("h", "None")] [("h", ""), ("cover", "")] _).1.mpr
      (by decide)
  · exact (C3_properties_equal_iff [("h", "1")] [("h", "2")] _).2.2 "h" (by decide) (by decide)

/-- C9: the orchestrator's per-record safe copy fills a missing
`"Achievements Unlocked"` with `"0"` and a missing `"Achievements Total"`
with `"游戏不存在成就"`, leaves present values untouched, and changes no
other key (the original record itself, being copied, is never mutated). -/
theorem C9_safe_defaults (g : Record) :
    aget (safeGame g) "Achievements Unlocked" =
      some ((aget g "Achievements Unlocked").getD (.vstr "0")) ∧
    aget (safeGame g) "Achievements Total" =
      some ((aget g "Achievements Total").getD (.vstr "游戏不存在成就")) ∧
    (∀ k : String, k ≠ "Achievements Unlocked" → k ≠ "Achievements Total" →
      aget (safeGame g) k = aget g k) := by
  unfold safeGame
  cases h1 : aget g "Achievements Unlocked" with
  | some x =>
    simp only
    cases h2 : aget g "Achievements Total" with
    | some y => simp [h1, h2]
    | none =>
      simp only [h1, h2]
      refine ⟨?_, ?_, ?_⟩
      · rw [aget_append]
        simp [h1]
      · rw [aget_append]
        simp [h2, aget_singleton]
      · intro k hk1 hk2
        rw [aget_append]
        cases hk : aget g k with
        | some z => simp
        | none => simp [aget_singleton, hk2]
  | none =>
    simp only [h1]
    have hAU : aget (g ++ [("Achievements Unlocked", Value.vstr "0")])
        "Achievements Unlocked" = some (Value.vstr "0") := by
      rw [aget_append]
      simp [h1, aget_singleton]
    cases h2 : aget (g ++ [("Achievements Unlocked", Value.vstr "0")])
        "Achievements Total" with
    | some y =>
      simp only [h2]
      have h2' : aget g "Achievements Total" = some y := by
        rw [aget_append] at h2
        cases hg : aget g "Achievements Total" with
        | some z => rw [hg] at h2; simpa using h2
        | none =>
          rw [hg] at h2
          simp [aget_singleton] at h2
      refine ⟨by simp [hAU, h1], by simp [h2'], ?_⟩
      · intro k hk1 hk2
        rw [aget_append]
        cases hk : aget g k with
        | some z => simp
        | none => simp [aget_singleton, hk1]
    | none =>
      simp only [h2]
      have h2' : aget g "Achievements Total" = none := by
        rw [aget_append] at h2
        cases hg : aget g "Achievements Total" with
        | some z => rw [hg] at h2; simp at h2
        | none => rfl
      refine ⟨?_, ?_, ?_⟩
      · rw [aget_append, hAU]
        simp [h1]
      · rw [aget_append, h2]
        simp [h2', aget_singleton]
      · intro k hk1 hk2
        rw [aget_append, aget_append]
        cases hk : aget g k with
        | some z => simp
        | none => simp [aget_singleton, hk1, hk2]

/-- Witness for C9 on a record missing both achievement fields. -/
theorem C9_witness :
    aget (safeGame [("Game Name", Value.vstr "A")]) "Achievements Unlocked" =
      some (Value.vstr "0") ∧
    aget (safeGame [("Game Name", Value.vstr "A")]) "Achievements Total" =
      some (Value.vstr "游戏不存在成就") ∧
    aget (safeGame [("Game Name", Value.vstr "A")]) "Game Name" =
      some (Value.vstr "A") := by
  obtain ⟨ha, hb, hc⟩ := C9_safe_defaults [("Game Name", Value.vstr "A")]
  exact ⟨by rw [ha]; rfl, by rw [hb]; rfl, by rw [hc "Game Name" (by decide) (by decide)]; rfl⟩

/-- C4 counterexample: a `number`-typed entry whose local field is missing
encodes the empty string — `{"number": ""}` — not the number `0`. -/
theorem C4_counterexample :
    build_properties [] [("Hours", ⟨"Hours", some "number", none⟩)] =
      .ok [("Hours", NotionProp.number (Value.vstr ""))] ∧
    NotionProp.number (Value.vstr "") ≠ NotionProp.number (Value.vint 0) := by
  exact ⟨rfl, by decide⟩

/-- C4 amended: for a mapping entry without a format template whose local
field is missing, the raw value is the empty string for every wire type:
title/url/text entries carry `""`, a number entry carries the empty string
(not `0`), and a date entry is omitted from the payload. -/
theorem C4_missing_field_defaults (game : Record) (lf : String) (mi : MapEntry)
    (hfmt : mi.format = none) (hmiss : aget game lf = none) :
    (mi.type = some "title" →
      buildPropEntry game lf mi = .ok (some (mi.notion_field, .title ""))) ∧
    (mi.type = some "number" →
      buildPropEntry game lf mi = .ok (some (mi.notion_field, .number (.vstr "")))) ∧
    (mi.type = some "date" → buildPropEntry game lf mi = .ok none) ∧
    (mi.type = some "url" →
      buildPropEntry game lf mi = .ok (some (mi.notion_field, .url ""))) ∧
    (mi.type = some "rich_text" →
      buildPropEntry game lf mi = .ok (some (mi.notion_field, .rich_text ""))) := by
  refine ⟨?_, ?_, ?_, ?_, ?_⟩ <;>
    · intro ht
      simp [buildPropEntry, hfmt, hmiss, ht, pyStr, pyTruthy, Bind.bind, Except.bind]

/-- Witness for C4 at concrete mapping entries over the empty record. -/
theorem C4_witness :
    buildPropEntry [] "h" ⟨"H", some "number", none⟩ =
      .ok (some ("H", .number (.vstr ""))) ∧
    buildPropEntry [] "d" ⟨"D", some "date", none⟩ = .ok none ∧
    buildPropEntry [] "u" ⟨"U", some "url", none⟩ = .ok (some ("U", .url "")) := by
  obtain ⟨_, hn, hd, hu, _⟩ := C4_missing_field_defaults [] "h" ⟨"H", some "number", none⟩
    rfl rfl
  refine ⟨hn rfl, ?_, ?_⟩
  · exact (C4_missing_field_defaults [] "d" ⟨"D", some "date", none⟩ rfl rfl).2.2.1 rfl
  · exact (C4_missing_field_defaults [] "u" ⟨"U", some "url", none⟩ rfl rfl).2.2.2.1 rfl

/-- C1 counterexample: the first record's format template references the
missing field `"Missing"`; the claim predicts that record is marked failed
without a write and the run continues to create the second record, but the
run aborts with the uncaught `KeyError` — no events at all are produced and
the second record is never processed. -/
theorem C1_counterexample :
    syncGames
      [("Game Name", ⟨"Name", some "title", none⟩),
       ("Info", ⟨"Info", some "rich_text", some [TemplateItem.field "Missing"]⟩)]
      (fun _ => none)
      [[("Game Name", Value.vstr "A")], [("Game Name", Value.vstr "B")]] =
      ([], some "Missing") := rfl

/-- C1 amended: when a record's template expansion references a missing field,
the error is uncaught: no remote write is issued for that record, and the
whole run aborts — records after it are never processed. -/
theorem C1_template_error_aborts (mapping : Mapping) (find : String → Option Page)
    (g : Record) (rest : List Record) (e : String)
    (hname : pyStrip (pyStr ((aget g "Game Name").getD (.vstr ""))) ≠ "")
    (hbuild : buildNewProps mapping (safeGame g) = .error e) :
    syncGames mapping find (g :: rest) = ([], some e) := by
  have hstep : syncStep mapping find g = .error e := by
    unfold syncStep
    rw [if_neg hname]
    simp only [hbuild]
  simp only [syncGames, hstep]

/-- Witness for C1 amended on the concrete aborting run. -/
theorem C1_witness :
    syncGames
      [("Game Name", ⟨"Name", some "title", none⟩),
       ("Info", ⟨"Info", some "rich_text", some [TemplateItem.field "Missing"]⟩)]
      (fun _ => none)
      [[("Game Name", Value.vstr "X")]] = ([], some "Missing") :=
  C1_template_error_aborts _ _ _ [] "Missing" (by decide) rfl

/-- C2 counterexample: the first lookup attempt fails with a non-SSL
transport exception (e.g. a timeout) — a transient transport failure in the
claim's sense — yet the call is not retried: it returns after one attempt
with no backoff sleeps, although the next attempt would have succeeded. -/
theorem C2_counterexample :
    find_existing_page_run
        (fun i => if i = 0 then Attempt.exc else Attempt.resp 200 [⟨"p1", [], none⟩]) =
      ⟨none, [], 1⟩ := rfl

/-- C2 amended: remote calls are retried only on SSL errors, up to 3 attempts
with sleeps of 2s then 4s between them; any other exception and any non-2xx
response terminate the call immediately without retry; and a per-record call
failure does not stop the run — the loop continues with the next record. -/
theorem C2_retry_behaviour :
    (find_existing_page_run (fun _ => .ssl) = ⟨none, [2, 4], 3⟩) ∧
    (create_page_run (fun _ => .ssl) = ⟨false, [2, 4], 3⟩) ∧
    (∀ att : Nat → Attempt, att 0 = .exc → find_existing_page_run att = ⟨none, [], 1⟩) ∧
    (∀ (att : Nat → Attempt) (s : Nat) (results : List Page),
      att 0 = .resp s results → s ≠ 200 → find_existing_page_run att = ⟨none, [], 1⟩) ∧
    (∀ (mapping : Mapping) (find : String → Option Page) (g : Record)
      (rest : List Record) (ev : Option SyncEvent),
      syncStep mapping find g = .ok ev →
      syncGames mapping find (g :: rest) =
        ((match ev with
          | some e => e :: (syncGames mapping find rest).1
          | none => (syncGames mapping find rest).1),
         (syncGames mapping find rest).2)) := by
  refine ⟨rfl, rfl, ?_, ?_, ?_⟩
  · intro att h
    simp only [find_existing_page_run, findRetryLoop, h]
  · intro att s results h hs
    simp only [find_existing_page_run, findRetryLoop, h]
    rw [if_pos hs]
  · intro mapping find g rest ev h
    simp only [syncGames, h]

/-- Witness for C2 on concrete attempt sequences and a concrete
single-record continuation. -/
theorem C2_witness :
    find_existing_page_run (fun _ => .exc) = ⟨none, [], 1⟩ ∧
    find_existing_page_run (fun _ => .resp 500 []) = ⟨none, [], 1⟩ ∧
    syncGames [] (fun _ => none) [[("Game Name", Value.vstr "A")]] =
      ([SyncEvent.created "A"], none) := by
  refine ⟨C2_retry_behaviour.2.2.1 _ rfl, C2_retry_behaviour.2.2.2.1 _ 500 [] rfl (by decide),
    ?_⟩
  rw [C2_retry_behaviour.2.2.2.2 [] (fun _ => none) [("Game Name", Value.vstr "A")] []
    (some (.created "A")) rfl]
  rfl

/-- The extraction rule of `extract_page_properties`: the first mapping entry
for a local field whose remote property is present stores exactly
`str(value).strip()` of the per-type extracted value. -/
theorem extract_entry (page : Page) :
    ∀ (mapping : Mapping) (lf : String) (mi : MapEntry) (prop : RemoteProp),
      aget mapping lf = some mi →
      aget page.properties mi.notion_field = some prop →
      aget (extract_page_properties page mapping) lf =
        some (pyStrip (pyStr (extractRaw mi.type prop))) := by
  intro mapping
  induction mapping with
  | nil => intro lf mi prop hentry _; simp [aget] at hentry
  | cons p rest ih =>
    intro lf mi prop hentry hprop
    cases p with
    | mk k mi' =>
      unfold extract_page_properties
      rw [List.foldr_cons]
      by_cases hk : lf = k
      · subst hk
        rw [aget_cons_self] at hentry
        have hmi : mi' = mi := by simpa using hentry
        subst hmi
        rw [hprop, List.cons_append, aget_cons_self]
      · rw [aget_cons_ne _ _ _ _ hk] at hentry
        have htail : aget (extract_page_properties page rest) lf =
            some (pyStrip (pyStr (extractRaw mi.type prop))) := ih lf mi prop hentry hprop
        unfold extract_page_properties at htail
        cases hp : aget page.properties mi'.notion_field with
        | some prop' =>
          dsimp only
          rw [List.cons_append, aget_cons_ne _ _ _ _ hk]
          exact htail
        | none =>
          dsimp only
          exact htail

/-- C10: decoding stringifies every stored property value with
`str(...).strip()`; in particular a null remote number is stored as the
string `"None"`, which the normalizer collapses to `""`, so it diff-equals
an empty local value. -/
theorem C10_decode_stringifies (page : Page) (mapping : Mapping) (lf : String)
    (mi : MapEntry) (prop : RemoteProp)
    (hentry : aget mapping lf = some mi)
    (hprop : aget page.properties mi.notion_field = some prop) :
    aget (extract_page_properties page mapping) lf =
      some (pyStrip (pyStr (extractRaw mi.type prop))) ∧
    extractRaw (some "number") (RemoteProp.number .vnull) = .vnull ∧
    pyStr Value.vnull = "None" ∧
    normalize_value (.vstr "None") "number" = "" ∧
    properties_equal
      (extract_page_properties ⟨"pid", [("Score", .number .vnull)], none⟩
        [("score", ⟨"Score", some "number", none⟩)])
      [("score", ""), ("cover", "")]
      [("score", ⟨"Score", some "number", none⟩)] = true :=
  ⟨extract_entry page mapping lf mi prop hentry hprop, rfl, rfl, by decide, by decide⟩

/-- Witness for C10 on a concrete page holding a null number property. -/
theorem C10_witness :
    aget (extract_page_properties ⟨"pid", [("Score", .number .vnull)], none⟩
        [("score", ⟨"Score", some "number", none⟩)]) "score" = some "None" := by
  rw [(C10_decode_stringifies ⟨"pid", [("Score", .number .vnull)], none⟩
    [("score", ⟨"Score", some "number", none⟩)] "score" ⟨"Score", some "number", none⟩
    (.number .vnull) (by decide) (by decide)).1]
  rfl

/-- C5: `normalize_value` with wire type `date` returns the parsed timestamp
truncated to minute precision as `YYYY-MM-DDTHH:MM` whenever the (trimmed,
`Z`-replaced) value parses, and the empty string whenever it does not; a
trailing `Z` therefore normalizes like an explicit `+00:00` offset or no
offset at all. -/
theorem C5_date_normalization :
    (∀ (v : Value) (dt : PyDateTime),
        pyFromIso (replaceZ (pyStrip (pyStr v))) = some dt →
        normalize_value v "date" = fmtMinute dt) ∧
    (∀ v : Value, pyFromIso (replaceZ (pyStrip (pyStr v))) = none →
        normalize_value v "date" = "") ∧
    normalize_value (.vstr "2024-01-01T10:00:00Z") "date" =
      normalize_value (.vstr "2024-01-01T10:00") "date" ∧
    normalize_value (.vstr "2024-01-01T10:00:00Z") "date" = "2024-01-01T10:00" := by
  have hparse_empty : ∀ v : Value, pyStrip (pyStr v) = "" →
      pyFromIso (replaceZ (pyStrip (pyStr v))) = none := by
    intro v h
    rw [h]
    rfl
  refine ⟨?_, ?_, by decide, by decide⟩
  · intro v dt hp
    have hEL : isEmptyLike v = false := by
      rw [Bool.eq_false_iff]
      intro hT
      simp only [isEmptyLike, Bool.or_eq_true, decide_eq_true_eq] at hT
      rcases hT with h | h | h | h
      · subst h
        rw [noneish_parse_none (show pyLower (pyStr Value.vnull) = "none" by decide)] at hp
        cases hp
      · subst h
        rw [hparse_empty (Value.vstr "") (by decide)] at hp
        cases hp
      · rw [hparse_empty v h] at hp
        cases hp
      · rw [noneish_parse_none h] at hp
        cases hp
    rw [normalize_date_eq hEL, if_neg ?hcheck]
    case hcheck =>
      rintro (h | h)
      · rw [hparse_empty v h] at hp
        cases hp
      · have hnone := noneish_parse_none h
        rw [pyStrip_idem] at hnone
        rw [hnone] at hp
        cases hp
    rw [hp]
  · intro v hp
    by_cases hEL : isEmptyLike v = true
    · exact normalize_value_emptyLike _ hEL
    · rw [normalize_date_eq (Bool.eq_false_iff.mpr hEL)]
      by_cases hc : pyStrip (pyStr v) = "" ∨ pyLower (pyStrip (pyStr v)) = "none"
      · rw [if_pos hc]
      · rw [if_neg hc, hp]

/-- Witness for C5 at the claim's concrete timestamps and a non-date string. -/
theorem C5_witness :
    pyFromIso (replaceZ (pyStrip (pyStr (Value.vstr "2024-01-01T10:00:00Z")))) =
      some ⟨2024, 1, 1, 10, 0, 0⟩ ∧
    normalize_value (.vstr "2024-01-01T10:00:00Z") "date" =
      fmtMinute ⟨2024, 1, 1, 10, 0, 0⟩ ∧
    normalize_value (.vstr "garbage") "date" = "" :=
  ⟨by decide, C5_date_normalization.1 _ _ (by decide),
    C5_date_normalization.2.1 _ (by decide)⟩

theorem parsePyFloat_none_of_trim_nil {s : String} (h : trimChars s.data = []) :
    parsePyFloat s = none := by
  unfold parsePyFloat
  simp [h, parseSign]

theorem parsePyFloat_none_head {s : String} {c : Char} {rest : List Char}
    (h : trimChars s.data = c :: rest) (hd : isDig c = false) (h1 : c ≠ '-')
    (h2 : c ≠ '+') (h3 : c ≠ '.') : parsePyFloat s = none := by
  have hsign : parseSign (c :: rest) = (false, c :: rest) := by
    simp [parseSign, h1, h2]
  have hspan : (c :: rest).span isDig = ([], c :: rest) := by
    rw [List.span_eq_take_drop, List.takeWhile_cons, List.dropWhile_cons]
    simp [hd]
  unfold parsePyFloat
  simp only [h, hsign, hspan]
  simp [h3]

theorem lowChar_toNat_cases {c x : Char} (h : lowChar c = x) :
    c.toNat = x.toNat ∨ c.toNat + 32 = x.toNat := by
  unfold lowChar at h
  split at h
  · right
    rename_i hr
    have h32 : (Char.ofNat (c.toNat + 32)).toNat = c.toNat + 32 :=
      toNat_ofNat_small _ (by omega)
    rw [← h32]
    exact congrArg Char.toNat h
  · left
    exact congrArg Char.toNat h

theorem parsePyFloat_none_of_noneish {s : String} (h : pyLower s = "none") :
    parsePyFloat s = none := by
  obtain ⟨c1, c2, c3, c4, hdata, hn1, hn2, hn3, hn4⟩ := pyLower_none_shape h
  have htrim : trimChars s.data = c1 :: [c2, c3, c4] := by
    rw [hdata]
    exact trimChars_eq_self (by
      intro c hc
      simp only [List.mem_cons, List.not_mem_nil, or_false] at hc
      rcases hc with h'|h'|h'|h' <;> subst h'
      · exact lowChar_in_none_not_ws (Or.inl rfl) hn1
      · exact lowChar_in_none_not_ws (Or.inr (Or.inl rfl)) hn2
      · exact lowChar_in_none_not_ws (Or.inl rfl) hn3
      · exact lowChar_in_none_not_ws (Or.inr (Or.inr rfl)) hn4)
  have hc1 : c1.toNat = 110 ∨ c1.toNat = 78 := by
    have hnval : ('n').toNat = 110 := rfl
    rcases lowChar_toNat_cases hn1 with h' | h'
    · left; omega
    · right; omega
  refine parsePyFloat_none_head htrim ?_ ?_ ?_ ?_
  · rw [Bool.eq_false_iff]
    intro hT
    have := isDig_toNat hT
    omega
  · exact char_ne_of_toNat_ne (by have : ('-').toNat = 45 := rfl; omega)
  · exact char_ne_of_toNat_ne (by have : ('+').toNat = 43 := rfl; omega)
  · exact char_ne_of_toNat_ne (by have : ('.').toNat = 46 := rfl; omega)

theorem isEmptyLike_false_of_parse {v : Value} {q : Rat} (h : pyFloat v = some q) :
    isEmptyLike v = false := by
  cases v with
  | vnull => simp [pyFloat] at h
  | vint n => exact isEmptyLike_vint n
  | vfloat r => exact isEmptyLike_vfloat r
  | vstr s =>
    rw [Bool.eq_false_iff]
    intro hT
    simp only [isEmptyLike, Bool.or_eq_true, decide_eq_true_eq] at hT
    have h' : parsePyFloat s = some q := h
    rcases hT with he | he | he | he
    · cases he
    · simp only [Value.vstr.injEq] at he
      subst he
      cases h'
    · have hnil : trimChars s.data = [] := congrArg String.data he
      rw [parsePyFloat_none_of_trim_nil hnil] at h'
      cases h'
    · have he' : pyLower s = "none" := he
      rw [parsePyFloat_none_of_noneish he'] at h'
      cases h'

/-- C6: `normalize_value` with wire type `number` renders a value that parses
as a float either as an integer string (when mathematically integral) or with
exactly one fractional digit (round half to even), and falls back to the
trimmed string form when parsing fails (for values not collapsed by the
empty/none rule, which takes precedence). -/
theorem C6_number_normalization :
    (∀ (v : Value) (q : Rat), pyFloat v = some q →
        normalize_value v "number" =
          (if q.den = 1 then renderInt q.num else oneDecStr q)) ∧
    (∀ v : Value, isEmptyLike v = false → pyFloat v = none →
        normalize_value v "number" = pyStrip (pyStr v)) ∧
    normalize_value (.vfloat 3) "number" = "3" ∧
    normalize_value (.vfloat (mkRat 314159 100000)) "number" = "3.1" := by
  refine ⟨?_, ?_, by decide, by decide⟩
  · intro v q h
    rw [normalize_number_eq (isEmptyLike_false_of_parse h), h]
  · intro v hEL h
    rw [normalize_number_eq hEL, h]

/-- Witness for C6 on a parsing and a non-parsing concrete value. -/
theorem C6_witness :
    pyFloat (.vstr " 21.3 ") = some (mkRat 213 10) ∧
    normalize_value (.vstr " 21.3 ") "number" = "21.3" ∧
    pyFloat (.vstr "abc") = none ∧
    normalize_value (.vstr "abc") "number" = "abc" := by
  refine ⟨by decide, ?_, by decide, ?_⟩
  · rw [C6_number_normalization.1 _ (mkRat 213 10) (by decide)]
    decide
  · rw [C6_number_normalization.2.1 _ (by decide) (by decide)]
    decide

/-! ### Idempotence: supporting lemmas -/

theorem pyStrip_fmt (dt : PyDateTime) : pyStrip (fmtMinute dt) = fmtMinute dt := by
  show String.mk (trimChars (fmtMinute dt).data) = fmtMinute dt
  rw [trimChars_eq_self fmtMinute_noWs]

theorem fmt_ne_empty (dt : PyDateTime) : fmtMinute dt ≠ "" := by
  intro h
  have := congrArg String.data h
  rw [fmtMinute_data] at this
  cases this

theorem fmt_lower_ne_none (dt : PyDateTime) : pyLower (fmtMinute dt) ≠ "none" := by
  rw [fmtMinute_eq_mk]
  exact pyLower_cons_ne_none _ (lowChar_of_isDig (isDig_digitChar _))

theorem isEmptyLike_fmt_false (dt : PyDateTime) :
    isEmptyLike (.vstr (fmtMinute dt)) = false := by
  rw [Bool.eq_false_iff]
  intro hT
  simp only [isEmptyLike, Bool.or_eq_true, decide_eq_true_eq] at hT
  rcases hT with h | h | h | h
  · cases h
  · simp only [Value.vstr.injEq] at h
    exact fmt_ne_empty dt h
  · have h' : pyStrip (fmtMinute dt) = "" := h
    rw [pyStrip_fmt] at h'
    exact fmt_ne_empty dt h'
  · have h' : pyLower (fmtMinute dt) = "none" := h
    exact fmt_lower_ne_none dt h'

theorem isEmptyLike_strip_false {v : Value} (hEL : isEmptyLike v = false)
    (hND : ¬(pyLower (pyStrip (pyStr v)) = "none" ∧ pyLower (pyStr v) ≠ "none")) :
    isEmptyLike (.vstr (pyStrip (pyStr v))) = false := by
  have hstrip_ne : pyStrip (pyStr v) ≠ "" := by
    intro hh
    rw [show isEmptyLike v = true by simp [isEmptyLike, hh]] at hEL
    cases hEL
  have hlower_ne : pyLower (pyStr v) ≠ "none" := by
    intro hh
    rw [show isEmptyLike v = true by simp [isEmptyLike, hh]] at hEL
    cases hEL
  rw [Bool.eq_false_iff]
  intro hT
  simp only [isEmptyLike, Bool.or_eq_true, decide_eq_true_eq] at hT
  rcases hT with h | h | h | h
  · cases h
  · simp only [Value.vstr.injEq] at h
    exact hstrip_ne h
  · have h' : pyStrip (pyStrip (pyStr v)) = "" := h
    rw [pyStrip_idem] at h'
    exact hstrip_ne h'
  · have h' : pyLower (pyStrip (pyStr v)) = "none" := h
    exact hND ⟨h', hlower_ne⟩

theorem mkRat_ten_num_neg_iff (m : Int) : (mkRat m 10).num < 0 ↔ m < 0 := by
  have hcross := mkRat_ten_cross m
  have hden : 0 < ((mkRat m 10).den : Int) := by
    have := (mkRat m 10).den_nz
    omega
  constructor
  · intro h
    by_contra hm
    push_neg at hm
    nlinarith
  · intro h
    by_contra hn
    push_neg at hn
    nlinarith

theorem roundTenths_mkRat (n : Nat) (m : Int) (hm : m = (n : Int) ∨ m = -(n : Int)) :
    roundHalfEven (10 * ((mkRat m 10).num.natAbs : Int)) (mkRat m 10).den = (n : Int) := by
  have hcross := mkRat_ten_cross m
  have hdenpos : 0 < (mkRat m 10).den := by
    have := (mkRat m 10).den_nz
    omega
  have hdenI : 0 ≤ ((mkRat m 10).den : Int) := by omega
  have habs : (10 : Int) * ((mkRat m 10).num.natAbs : Int) =
      (n : Int) * ((mkRat m 10).den : Int) := by
    rcases hm with h | h
    · subst h
      have hnum_nonneg : 0 ≤ (mkRat (n : Int) 10).num := by
        nlinarith
      omega
    · subst h
      have hnum_nonpos : (mkRat (-(n : Int)) 10).num ≤ 0 := by
        nlinarith
      rw [neg_mul] at hcross
      omega
  rw [habs]
  exact roundHalfEven_mul _ _ hdenpos

/-- C8 counterexample: `normalize_value(" none ", text)` yields `"none"`, and
renormalizing `"none"` collapses it to `""` — so normalization, as claimed
for every value and wire type, is not idempotent. -/
theorem C8_counterexample :
    normalize_value (.vstr (normalize_value (.vstr " none ") "text")) "text" ≠
      normalize_value (.vstr " none ") "text" := by decide

/-- C8 amended: normalization is idempotent for every value and wire type
except in two cases the code exhibits: (1) a value whose trimmed string form
is case-insensitively `"none"` while its untrimmed form is not (e.g.
`" none "`) on any non-date wire type, and (2) a `number` value parsing to a
non-integer whose one-decimal rendering ends in `.0` (e.g. `3.04`, rendered
`"3.0"`, which renormalizes to `"3"`). -/
theorem C8_normalize_idempotent (v : Value) (t : String)
    (h1 : ¬(noneDrift v = true ∧ t ≠ "date"))
    (h2 : ¬(t = "number" ∧ badTenth v = true)) :
    normalize_value (.vstr (normalize_value v t)) t = normalize_value v t := by
  by_cases hEL : isEmptyLike v = true
  · rw [normalize_value_emptyLike t hEL]
    exact normalize_value_emptyLike t (by decide)
  · have hEL' : isEmptyLike v = false := Bool.eq_false_iff.mpr hEL
    have hND : t ≠ "date" →
        ¬(pyLower (pyStrip (pyStr v)) = "none" ∧ pyLower (pyStr v) ≠ "none") := by
      intro ht hc
      exact h1 ⟨by simp only [noneDrift, decide_eq_true_eq]; exact hc, ht⟩
    by_cases hdate : t = "date"
    · subst hdate
      rw [normalize_date_eq hEL']
      by_cases hc : pyStrip (pyStr v) = "" ∨ pyLower (pyStrip (pyStr v)) = "none"
      · rw [if_pos hc]
        exact normalize_value_emptyLike _ (by decide)
      · rw [if_neg hc]
        cases hp : pyFromIso (replaceZ (pyStrip (pyStr v))) with
        | none => exact normalize_value_emptyLike _ (by decide)
        | some dt =>
          have hvalid := pyFromIso_valid hp
          rw [normalize_date_eq (isEmptyLike_fmt_false dt)]
          have hstripf : pyStrip (pyStr (Value.vstr (fmtMinute dt))) = fmtMinute dt :=
            pyStrip_fmt dt
          rw [hstripf, if_neg (by
            rintro (h | h)
            · exact fmt_ne_empty dt h
            · exact fmt_lower_ne_none dt h)]
          rw [replaceZ_eq_self fmtMinute_noZ, pyFromIso_fmtMinute hvalid]
          rfl
    · by_cases hnum : t = "number"
      · subst hnum
        have hND' := hND (by decide)
        rw [normalize_number_eq hEL']
        cases hq : pyFloat v with
        | none =>
          dsimp only
          have hsEL : isEmptyLike (.vstr (pyStrip (pyStr v))) = false :=
            isEmptyLike_strip_false hEL' hND'
          rw [normalize_number_eq hsEL]
          have hparse : pyFloat (Value.vstr (pyStrip (pyStr v))) = none := by
            show parsePyFloat (pyStrip (pyStr v)) = none
            rw [parsePyFloat_pyStrip]
            cases v with
            | vnull => exact absurd hEL' (by decide)
            | vstr s => exact hq
            | vint n => simp [pyFloat] at hq
            | vfloat r => simp [pyFloat] at hq
          rw [hparse]
          exact pyStrip_idem (pyStr v)
        | some q =>
          dsimp only
          by_cases hden : q.den = 1
          · rw [if_pos hden]
            have hsEL : isEmptyLike (.vstr (renderInt q.num)) = false :=
              isEmptyLike_mk_false (renderIntL_ne_nil _) (renderIntL_okNum _)
            rw [normalize_number_eq hsEL]
            have hparse : pyFloat (Value.vstr (renderInt q.num)) = some ((q.num : Rat)) :=
              parsePyFloat_renderIntL q.num
            rw [hparse]
            dsimp only
            rw [if_pos (Rat.den_intCast q.num), Rat.num_intCast]
          · rw [if_neg hden]
            have hbad : ¬((roundHalfEven (10 * q.num.natAbs) q.den).toNat % 10 = 0) := by
              intro hmod
              exact h2 ⟨rfl, by
                simp only [badTenth, hq, decide_eq_true_eq]
                exact ⟨hden, hmod⟩⟩
            have hsEL : isEmptyLike (.vstr (oneDecStr q)) = false :=
              isEmptyLike_mk_false (oneDecL_ne_nil _) (oneDecL_okNum _)
            rw [normalize_number_eq hsEL]
            have hparse := parsePyFloat_oneDecL q
            have hparse' : pyFloat (Value.vstr (oneDecStr q)) =
                some (mkRat
                  (if q.num < 0 then
                    -(((roundHalfEven (10 * q.num.natAbs) q.den).toNat : Int))
                  else ((roundHalfEven (10 * q.num.natAbs) q.den).toNat : Int)) 10) := hparse
            rw [hparse']
            dsimp only
            set n := (roundHalfEven (10 * q.num.natAbs) q.den).toNat with hn
            set m : Int := if q.num < 0 then -(n : Int) else (n : Int) with hm
            have hmmod : m % 10 ≠ 0 := by
              by_cases hqn : q.num < 0
              · rw [hm, if_pos hqn]
                omega
              · rw [hm, if_neg hqn]
                omega
            rw [if_neg (mkRat_ten_den_ne_one hmmod)]
            show oneDecStr (mkRat m 10) = oneDecStr q
            have hmcases : m = (n : Int) ∨ m = -(n : Int) := by
              by_cases hqn : q.num < 0
              · right; rw [hm, if_pos hqn]
              · left; rw [hm, if_neg hqn]
            have hround := roundTenths_mkRat n m hmcases
            have hsign : (mkRat m 10).num < 0 ↔ q.num < 0 := by
              rw [mkRat_ten_num_neg_iff]
              by_cases hqn : q.num < 0
              · rw [hm, if_pos hqn]
                constructor
                · intro _; exact hqn
                · intro _; omega
              · rw [hm, if_neg hqn]
                constructor
                · intro hc; omega
                · intro hc; exact absurd hc hqn
            show String.mk (oneDecL (mkRat m 10)) = String.mk (oneDecL q)
            congr 1
            unfold oneDecL
            have hrw : roundHalfEven (10 * ((mkRat m 10).num.natAbs : Int))
                (mkRat m 10).den = (n : Int) := hround
            rw [hrw]
            rw [Int.toNat_natCast]
            by_cases hqn : q.num < 0
            · rw [if_pos (hsign.mpr hqn), if_pos hqn, ← hn]
            · rw [if_neg (fun hc => hqn (hsign.mp hc)), if_neg hqn, ← hn]
      · have hND' := hND hdate
        rw [normalize_generic_eq hEL' hdate hnum]
        cases v with
        | vnull => exact absurd hEL' (by decide)
        | vstr s =>
          show normalize_value (.vstr (pyStrip s)) t = pyStrip s
          have hsEL : isEmptyLike (.vstr (pyStrip s)) = false :=
            isEmptyLike_strip_false hEL' hND'
          rw [normalize_generic_eq hsEL hdate hnum]
          exact pyStrip_idem s
        | vint n =>
          show normalize_value (.vstr (renderInt n)) t = renderInt n
          have hsEL : isEmptyLike (.vstr (renderInt n)) = false :=
            isEmptyLike_mk_false (renderIntL_ne_nil _) (renderIntL_okNum _)
          rw [normalize_generic_eq hsEL hdate hnum]
          exact pyStrip_mk_eq_self (renderIntL_okNum n)
        | vfloat r =>
          show normalize_value (.vstr (renderFloat r)) t = renderFloat r
          have hsEL : isEmptyLike (.vstr (renderFloat r)) = false :=
            isEmptyLike_mk_false (renderFloatL_ne_nil _) (renderFloatL_okNum _)
          rw [normalize_generic_eq hsEL hdate hnum]
          exact pyStrip_mk_eq_self (renderFloatL_okNum r)

/-- Witness for C8 at concrete values outside the two exception families. -/
theorem C8_witness :
    normalize_value (.vstr (normalize_value (.vstr " 3.25 ") "number")) "number" =
      normalize_value (.vstr " 3.25 ") "number" ∧
    normalize_value (.vstr (normalize_value (.vstr "2024-01-01T10:00:00Z") "date")) "date" =
      normalize_value (.vstr "2024-01-01T10:00:00Z") "date" ∧
    normalize_value (.vstr (normalize_value (.vstr " hi ") "url")) "url" =
      normalize_value (.vstr " hi ") "url" :=
  ⟨C8_normalize_idempotent (.vstr " 3.25 ") "number" (by decide) (by decide),
   C8_normalize_idempotent (.vstr "2024-01-01T10:00:00Z") "date" (by decide) (by decide),
   C8_normalize_idempotent (.vstr " hi ") "url" (by decide) (by decide)⟩

end SteamToNotion
